import Mathlib

/-!
Verification of the marinade rebalancing-controller core against its
natural-language specification.

The Rust sources embedded here (shallowly, as executable Lean functions):
  * `sdk/offchain-common/src/transaction_builder.rs` — the Operation Batcher
    (`TransactionBuilder`);
  * `cli/bot-cli/src/do_work.rs` — the Epoch-Phase Scheduler;
  * `cli/bot-cli/src/stake_delta.rs` — the Stake-Delta Allocator;
  * `cli/bot-cli/src/merge_stakes.rs` — the Merge Consolidator;
  * `cli/bot-cli/src/update_price.rs` — the Price/Accrual Crank.

Modelling conventions.
  * Machine integers (`u32`, `u64`, `i64`, `i128`) are modelled as `Nat`/`Int`.
    The programs at hand only subtract where the source itself uses
    `saturating_sub` or values known non-negative, so `Nat` subtraction
    (truncated) matches `saturating_sub` and the non-overflowing cases.
  * `Pubkey` values are modelled as `Nat` identifiers.
  * External I/O (RPC balance reads, on-chain state refreshed by
    `marinade.update()`, transaction outcomes, wall-clock budget checks) is
    modelled as an environment oracle: a function from a step counter to the
    values the controller observes at that step.  Each loop iteration of the
    source that performs fresh reads consumes one oracle index.
  * Rust panics (`expect`, `assert!`) are modelled with `Except String`.
  * `bincode::serialize(&transaction).len()` (an external crate) is modelled
    as an arbitrary size function `txSize : List Instruction → Nat` passed as
    a parameter; all theorems quantify over it.
-/

namespace Marinade

/-- `u64::MAX`: stake accounts that are not deactivating have
`delegation.deactivation_epoch == u64::MAX`. -/
def u64MAX : Nat := 2 ^ 64 - 1

/- Operation Batcher: `transaction_builder.rs` -/

/-- One account reference of an instruction: `(pubkey, is_signer)`, the two
fields of `AccountMeta` that `TransactionBuilder::check_signers` reads. -/
structure AccountRef where
  pubkey : Nat
  signerFlag : Bool
deriving Repr, DecidableEq

/-- A `solana_sdk::instruction::Instruction`, restricted to the data the
builder inspects: its account list.  (Program id and data only influence the
serialized size, which is abstracted into `txSize`.) -/
structure Instr where
  accounts : List AccountRef
deriving Repr, DecidableEq

/-- `TransactionBuildError` from `transaction_builder.rs`. -/
inductive TransactionBuildError where
  | unknownSigner (key : Nat)
  | tooBigTransaction
deriving Repr, DecidableEq

/-- `TransactionBuilder`: registered signer keys (the signature builder),
the queue of committed instruction packs, the currently open pack
(`current_instruction_pack : OnceCell<Vec<_>>`), and the size ceiling. -/
structure TransactionBuilder where
  signers : List Nat
  instruction_packs : List (List Instr)
  current_instruction_pack : Option (List Instr)
  max_transaction_size : Nat
deriving Repr, DecidableEq

/-- `TransactionBuilder::new(fee_payer, max_transaction_size)`: fresh builder
whose signature builder holds the fee payer only. -/
def TransactionBuilder.new (fee_payer : Nat) (max_transaction_size : Nat) :
    TransactionBuilder :=
  { signers := [fee_payer]
    instruction_packs := []
    current_instruction_pack := none
    max_transaction_size := max_transaction_size }

/-- `TransactionBuilder::unlimited(fee_payer)`: "no size limit, can be split
in many transactions" — ceiling 0. -/
def TransactionBuilder.unlimited (fee_payer : Nat) : TransactionBuilder :=
  TransactionBuilder.new fee_payer 0

/-- `TransactionBuilder::check_signers`: the first account that is a signer
but is not registered in the signature builder yields `UnknownSigner`. -/
def check_signers (b : TransactionBuilder) (ins : Instr) :
    Option TransactionBuildError :=
  match ins.accounts.find? (fun a => a.signerFlag && !(b.signers.contains a.pubkey)) with
  | some a => some (TransactionBuildError.unknownSigner a.pubkey)
  | none => none

/-- `TransactionBuilder::inside_transaction`. -/
def TransactionBuilder.inside_transaction (b : TransactionBuilder) : Bool :=
  b.current_instruction_pack.isSome

/-- `TransactionBuilder::add_instruction`, for a given serialized-size model
`txSize`.  Mirrors the source: check signers; auto-`begin` when no pack is
open; push the instruction; if the ceiling is positive and the serialized
candidate exceeds it, undo the push (`rollback` for an auto-opened pack,
`pop` otherwise — either way the builder is exactly as before the call) and
fail with `TooBigTransaction`; otherwise auto-`commit` when auto-opened.
Returns the Rust `Result` paired with the builder after the call. -/
def add_instruction (txSize : List Instr → Nat) (b : TransactionBuilder)
    (ins : Instr) : Except TransactionBuildError Unit × TransactionBuilder :=
  match check_signers b ins with
  | some e => (Except.error e, b)
  | none =>
    let add_transaction := !b.inside_transaction
    let current := b.current_instruction_pack.getD [] ++ [ins]
    if 0 < b.max_transaction_size ∧ b.max_transaction_size < txSize current then
      (Except.error TransactionBuildError.tooBigTransaction, b)
    else if add_transaction then
      (Except.ok (), { b with instruction_packs := b.instruction_packs ++ [current] })
    else
      (Except.ok (), { b with current_instruction_pack := some current })

/-- Greedy coalescing loop of `build_next_combined` (ceiling > 0): keep
absorbing whole queued packs while the serialized candidate still fits. -/
def combineGreedy (txSize : List Instr → Nat) (maxSize : Nat) :
    List Instr → List (List Instr) → List Instr × List (List Instr)
  | acc, [] => (acc, [])
  | acc, next :: rest =>
    if txSize (acc ++ next) ≤ maxSize then combineGreedy txSize maxSize (acc ++ next) rest
    else (acc, next :: rest)

/-- `TransactionBuilder::build_next_combined`.  The Rust `assert!` that no
uncommitted pack is pending is modelled as the `Except.error` case.  With
ceiling 0 the whole queue is drained into one unit; with a positive ceiling
the first pack is taken and following packs are greedily absorbed while they
fit.  Returns the produced combined batch (if any) and the builder after. -/
def build_next_combined (txSize : List Instr → Nat) (b : TransactionBuilder) :
    Except String (Option (List Instr) × TransactionBuilder) :=
  if !((b.current_instruction_pack.map List.isEmpty).getD true) then
    Except.error "Not commited transaction"
  else
    match b.instruction_packs with
    | [] => Except.ok (none, b)
    | first :: rest =>
      if b.max_transaction_size = 0 then
        Except.ok (some b.instruction_packs.flatten, { b with instruction_packs := [] })
      else
        let res := combineGreedy txSize b.max_transaction_size first rest
        Except.ok (some res.1, { b with instruction_packs := res.2 })

/-- C6: appending to an explicitly open batch that would overflow a positive
ceiling is rejected with the builder (hence the open batch) left exactly as
before the call; with no batch explicitly open, an operation that fits alone
is committed as a fresh single-operation batch, and an operation that alone
exceeds the ceiling fails with the too-big error leaving no batch behind
(neither an open pack nor a queued one). -/
theorem addInstruction_overflow_spec
    (txSize : List Instr → Nat) (b : TransactionBuilder) (ins : Instr)
    (hsig : check_signers b ins = none) (hpos : 0 < b.max_transaction_size) :
    (∀ cur, b.current_instruction_pack = some cur →
      b.max_transaction_size < txSize (cur ++ [ins]) →
      add_instruction txSize b ins =
        (Except.error TransactionBuildError.tooBigTransaction, b)) ∧
    (b.current_instruction_pack = none →
      txSize [ins] ≤ b.max_transaction_size →
      add_instruction txSize b ins =
        (Except.ok (), { b with instruction_packs := b.instruction_packs ++ [[ins]] })) ∧
    (b.current_instruction_pack = none →
      b.max_transaction_size < txSize [ins] →
      add_instruction txSize b ins =
        (Except.error TransactionBuildError.tooBigTransaction, b)) := by
  refine ⟨?_, ?_, ?_⟩
  · intro cur hcur hover
    simp only [add_instruction, hsig, TransactionBuilder.inside_transaction, hcur,
      Option.isSome_some, Option.getD_some]
    rw [if_pos ⟨hpos, hover⟩]
  · intro hcur hfit
    simp only [add_instruction, hsig, TransactionBuilder.inside_transaction, hcur,
      Option.isSome_none, Option.getD_none, List.nil_append]
    rw [if_neg (by omega)]
    simp
  · intro hcur hover
    simp only [add_instruction, hsig, TransactionBuilder.inside_transaction, hcur,
      Option.isSome_none, Option.getD_none, List.nil_append]
    rw [if_pos ⟨hpos, hover⟩]

/-- Witness for C6: a concrete builder with ceiling 10 and a size model under
which the open batch `[ins]` plus another `ins` measures 12 > 10. -/
theorem addInstruction_overflow_spec_witness :
    check_signers ⟨[7], [], some [⟨[⟨7, true⟩]⟩], 10⟩ ⟨[⟨7, true⟩]⟩ = none ∧
    0 < (10 : Nat) ∧
    add_instruction (fun l => 6 * l.length) ⟨[7], [], some [⟨[⟨7, true⟩]⟩], 10⟩ ⟨[⟨7, true⟩]⟩ =
      (Except.error TransactionBuildError.tooBigTransaction,
        ⟨[7], [], some [⟨[⟨7, true⟩]⟩], 10⟩) := by
  refine ⟨by decide, by decide, ?_⟩
  exact (addInstruction_overflow_spec (fun l => 6 * l.length)
    ⟨[7], [], some [⟨[⟨7, true⟩]⟩], 10⟩ ⟨[⟨7, true⟩]⟩ (by decide) (by decide)).1
    [⟨[⟨7, true⟩]⟩] rfl (by decide)

/-- C10: with ceiling 0 (the `unlimited` constructor) `add_instruction` never
fails with the too-big error, whatever the size model says, and
`build_next_combined` merges the whole queue of closed batches into a single
unit leaving the queue empty. -/
theorem unlimited_builder_spec
    (txSize : List Instr → Nat) (b : TransactionBuilder) (ins : Instr)
    (h0 : b.max_transaction_size = 0) :
    (TransactionBuilder.unlimited 7).max_transaction_size = 0 ∧
    (add_instruction txSize b ins).1 ≠
      Except.error TransactionBuildError.tooBigTransaction ∧
    ((b.current_instruction_pack.map List.isEmpty).getD true = true →
      b.instruction_packs ≠ [] →
      build_next_combined txSize b =
        Except.ok (some b.instruction_packs.flatten,
          { b with instruction_packs := [] })) := by
  refine ⟨rfl, ?_, ?_⟩
  · simp only [add_instruction]
    match hs : check_signers b ins with
    | some e =>
      simp only [hs]
      intro hcontra
      cases hs' : e with
      | unknownSigner k => simp [hs'] at hcontra
      | tooBigTransaction =>
        -- check_signers only produces unknownSigner errors
        exfalso
        unfold check_signers at hs
        cases hfind : ins.accounts.find?
            (fun a => a.signerFlag && !(b.signers.contains a.pubkey)) with
        | none => rw [hfind] at hs; exact Option.noConfusion hs
        | some a =>
          rw [hfind] at hs
          rw [hs'] at hs
          exact TransactionBuildError.noConfusion (Option.some.inj hs)
    | none =>
      simp only [hs, h0]
      rw [if_neg (by omega)]
      by_cases hin : !b.inside_transaction <;> simp [hin]
  · intro hcur hne
    unfold build_next_combined
    rw [hcur]
    simp only [Bool.not_true, Bool.false_eq_true, if_false]
    match hp : b.instruction_packs with
    | [] => exact absurd hp hne
    | first :: rest =>
      simp only [h0, hp, if_true, if_pos]

/-- Witness for C10: the unlimited builder with two queued single-instruction
batches; an oversized instruction still adds, and the combined build drains
the queue into one unit. -/
theorem unlimited_builder_spec_witness :
    (⟨[7], [[⟨[]⟩], [⟨[]⟩]], none, 0⟩ : TransactionBuilder).max_transaction_size = 0 ∧
    ((TransactionBuilder.unlimited 7).max_transaction_size = 0 ∧
      (add_instruction (fun l => 1000 * l.length)
        ⟨[7], [[⟨[]⟩], [⟨[]⟩]], none, 0⟩ ⟨[]⟩).1 ≠
        Except.error TransactionBuildError.tooBigTransaction ∧
      (((⟨[7], [[⟨[]⟩], [⟨[]⟩]], none, 0⟩ :
          TransactionBuilder).current_instruction_pack.map List.isEmpty).getD true = true →
        (⟨[7], [[⟨[]⟩], [⟨[]⟩]], none, 0⟩ : TransactionBuilder).instruction_packs ≠ [] →
        build_next_combined (fun l => 1000 * l.length) ⟨[7], [[⟨[]⟩], [⟨[]⟩]], none, 0⟩ =
          Except.ok (some [⟨[]⟩, ⟨[]⟩], ⟨[7], [], none, 0⟩))) := by
  exact ⟨rfl, unlimited_builder_spec (fun l => 1000 * l.length)
    ⟨[7], [[⟨[]⟩], [⟨[]⟩]], none, 0⟩ ⟨[]⟩ rfl⟩

/- Epoch-Phase Scheduler: `do_work.rs` -/

/-- Which sub-algorithms one `do_work` tick decides to run (in this order):
request extra stake-delta runs, run the Stake-Delta Allocator, run the
Price/Accrual Crank (`update_price`), run the Merge Consolidator. -/
structure DoWorkPlan where
  ask_extra_runs : Bool
  runs_stake_delta : Bool
  runs_update_price : Bool
  runs_merge_stakes : Bool
deriving Repr, DecidableEq

/-- `DoWorkOptions::process`, reduced to its gating decisions.  Inputs are
the values the tick reads: the epoch clock, `slots_for_stake_delta`, the
freshly computed `stake_delta` (i128), `min_stake`, the extra-run counter,
the number of validators with nonzero score, the elapsed wall-clock seconds
when the merge gate is evaluated, and `max_run_minutes`.
`LAST_SLOTS_UNSAFE_MARGIN = 32`.  `stake_window_start_slot` uses
`saturating_sub` (Nat subtraction); `epoch_last_slot - 32` is plain `u64`
subtraction, which never underflows for real epochs (an epoch is ≥ 32
slots). -/
def doWorkPlan (epoch_first_slot epoch_last_slot slot slots_for_stake_delta : Nat)
    (total_stake_delta : Int) (min_stake : Nat)
    (extra_stake_delta_runs validators_with_score_count : Nat)
    (elapsed_secs max_run_minutes : Nat) : DoWorkPlan :=
  let stake_window_start_slot := epoch_last_slot - slots_for_stake_delta
  let in_window := stake_window_start_slot < slot ∧ slot < epoch_last_slot - 32
  let actionable := ¬(total_stake_delta = 0) ∧
    ¬(0 < total_stake_delta ∧ total_stake_delta < (min_stake : Int))
  let before_the_stake_delta_window := slot < stake_window_start_slot
  let remaining_secs := max_run_minutes * 60 - elapsed_secs
  { ask_extra_runs := decide (in_window ∧ actionable ∧
      extra_stake_delta_runs < validators_with_score_count ∧
      stake_window_start_slot + slots_for_stake_delta / 2 < slot)
    runs_stake_delta := decide (in_window ∧ actionable)
    runs_update_price := decide (before_the_stake_delta_window ∧
      slot < (epoch_last_slot + epoch_first_slot) / 2)
    runs_merge_stakes := decide (before_the_stake_delta_window ∧ 10 < remaining_secs) }

/-- SettlementWindow as the spec words it:
`epoch_last_slot − settlement_slots < current_slot < epoch_last_slot − unsafe_margin`. -/
def specSettlementWindow (epoch_last_slot settlement_slots unsafe_margin slot : Nat) :
    Prop :=
  epoch_last_slot - settlement_slots < slot ∧ slot < epoch_last_slot - unsafe_margin

instance (a b c d : Nat) : Decidable (specSettlementWindow a b c d) := by
  unfold specSettlementWindow
  infer_instance

/-- C5 counterexample.  Epoch slots 0..1000, settlement window of 100 slots,
margin 32, so SettlementWindow = slots 901..967.
Input A — slot 950 (inside the window) with `total_stake_delta = 0`: the
claim's "runs if and only if" requires the Allocator to run, but the tick
does not run it.
Input B — slot 990 (outside the window, hence in the spec's AccrualWindow)
with 540 s of remaining budget: the claim requires the Merge Consolidator to
run, but the tick runs nothing because 990 is not strictly before the
window start. -/
theorem scheduler_window_counterexample :
    (specSettlementWindow 1000 100 32 950 ∧
      (doWorkPlan 0 1000 950 100 0 10 0 1 0 9).runs_stake_delta = false) ∧
    ((¬ specSettlementWindow 1000 100 32 990) ∧ 10 < 9 * 60 - 0 ∧
      (doWorkPlan 0 1000 990 100 50 10 0 1 0 9).runs_merge_stakes = false ∧
      (doWorkPlan 0 1000 990 100 50 10 0 1 0 9).runs_update_price = false ∧
      (doWorkPlan 0 1000 990 100 50 10 0 1 0 9).runs_stake_delta = false) := by
  constructor
  · exact ⟨by decide, by decide⟩
  · exact ⟨by decide, by decide, by decide, by decide, by decide⟩

/-- C5 (amended): the Allocator runs iff the SettlementWindow condition
holds (with `unsafe_margin = 32`) AND the imbalance is actionable (nonzero
and not a positive amount below `min_stake`); the Crank runs iff the slot is
strictly before the window start and in the first half of the epoch; the
Merge Consolidator runs iff the slot is strictly before the window start and
more than 10 seconds of budget remain.  In particular, on ticks at or after
the window start that are not inside the window, none of the three runs. -/
theorem scheduler_gating_spec (efs els slot sfd : Nat) (delta : Int)
    (ms extra nscore elapsed maxmin : Nat) :
    ((doWorkPlan efs els slot sfd delta ms extra nscore elapsed maxmin).runs_stake_delta
        = true ↔
      specSettlementWindow els sfd 32 slot ∧ delta ≠ 0 ∧
        ¬(0 < delta ∧ delta < (ms : Int))) ∧
    ((doWorkPlan efs els slot sfd delta ms extra nscore elapsed maxmin).runs_update_price
        = true ↔
      slot < els - sfd ∧ slot < (els + efs) / 2) ∧
    ((doWorkPlan efs els slot sfd delta ms extra nscore elapsed maxmin).runs_merge_stakes
        = true ↔
      slot < els - sfd ∧ 10 < maxmin * 60 - elapsed) ∧
    (els - sfd ≤ slot → ¬ specSettlementWindow els sfd 32 slot →
      (doWorkPlan efs els slot sfd delta ms extra nscore elapsed maxmin).runs_stake_delta
          = false ∧
      (doWorkPlan efs els slot sfd delta ms extra nscore elapsed maxmin).runs_update_price
          = false ∧
      (doWorkPlan efs els slot sfd delta ms extra nscore elapsed maxmin).runs_merge_stakes
          = false) := by
  refine ⟨?_, ?_, ?_, ?_⟩
  · simp only [doWorkPlan, decide_eq_true_eq, specSettlementWindow]
  · simp [doWorkPlan]
  · simp [doWorkPlan]
  · intro hle hnw
    unfold specSettlementWindow at hnw
    refine ⟨?_, ?_, ?_⟩
    · simp only [doWorkPlan, decide_eq_false_iff_not]
      intro h
      exact hnw ⟨h.1.1, h.1.2⟩
    · simp only [doWorkPlan, decide_eq_false_iff_not]
      intro h
      omega
    · simp only [doWorkPlan, decide_eq_false_iff_not]
      intro h
      omega

/-- Witness for C5 (amended): a tick strictly before the window start with
the slot in the first half and ample budget runs the Crank and the Merge
Consolidator but not the Allocator. -/
theorem scheduler_gating_spec_witness :
    ((doWorkPlan 0 1000 400 100 50 10 0 1 0 9).runs_stake_delta = false ∧
      (doWorkPlan 0 1000 400 100 50 10 0 1 0 9).runs_update_price = true ∧
      (doWorkPlan 0 1000 400 100 50 10 0 1 0 9).runs_merge_stakes = true) := by
  have h := scheduler_gating_spec 0 1000 400 100 50 10 0 1 0 9
  refine ⟨?_, ?_, ?_⟩
  · have := h.1
    revert this
    decide
  · exact h.2.1.mpr (by decide)
  · exact h.2.2.1.mpr (by decide)

/- Ledger snapshot data model, shared by the three algorithms. -/

/-- `ValidatorRecord` (from the on-chain `validator_system`), restricted to
the fields the bot reads. -/
structure ValidatorRecord where
  validator_account : Nat
  active_balance : Nat
  score : Nat
  last_stake_delta_epoch : Nat
deriving Repr, DecidableEq

/-- `StakeRecord` (from the on-chain `stake_system`), restricted to the
fields the bot reads. -/
structure StakeRecord where
  stake_account : Nat
  last_update_delegated_lamports : Nat
  last_update_epoch : Nat
deriving Repr, DecidableEq

/-- `solana_sdk::stake::state::Delegation`, restricted to the fields read:
the vote key, the delegated amount, and the deactivation epoch
(`u64MAX` = not deactivating). -/
structure Delegation where
  voter_pubkey : Nat
  stake : Nat
  deactivation_epoch : Nat
deriving Repr, DecidableEq

/-- `StakeState::stake()`: present iff the account is delegated; carries the
delegation and `credits_observed`. -/
structure StakeData where
  delegation : Delegation
  credits_observed : Nat
deriving Repr, DecidableEq

/-- `cli_common::rpc_marinade::StakeInfo`: list index, marinade record,
stake-account state and balance.  `effective`/`activating`/`deactivating`
carry the result of
`delegation.stake_activating_and_deactivating(clock.epoch, stake_history)` —
external `solana-program` code — as part of the snapshot. -/
structure StakeInfo where
  index : Nat
  record : StakeRecord
  stake : Option StakeData
  balance : Nat
  effective : Nat
  activating : Nat
  deactivating : Nat
deriving Repr, DecidableEq

/- Merge Consolidator: `merge_stakes.rs` -/

/-- `MergeableStakeKind` from `merge_stakes.rs`: `ActivationEpoch` when the
effective delegated amount this epoch is 0, `FullyActive` when there is no
pending activation/deactivation delta. -/
inductive MergeableStakeKind where
  | activationEpoch
  | fullyActive
deriving Repr, DecidableEq

/-- `MergeableStakeInfo` from `merge_stakes.rs`. -/
structure MergeableStakeInfo where
  index : Nat
  kind : MergeableStakeKind
  credits_observed : Nat
  address : Nat
  validator_index : Nat
deriving Repr, DecidableEq

instance : Inhabited MergeableStakeInfo :=
  ⟨⟨0, MergeableStakeKind.activationEpoch, 0, 0, 0⟩⟩

/-- The classification step of `merge_stakes::process` (the `filter_map`
body, lines 41-80): keep delegated, non-deactivating accounts; resolve the
validator index by linear `position` lookup (the `expect` panic when the
validator is missing is the `Except.error` case — the source performs this
lookup before classifying); kind `ActivationEpoch` when `effective == 0`,
else `FullyActive` when `activating == 0 && deactivating == 0`, else not
mergeable. -/
def classifyMergeable (validators : List ValidatorRecord) (s : StakeInfo) :
    Except String (Option MergeableStakeInfo) :=
  match s.stake with
  | none => Except.ok none
  | some sd =>
    if sd.delegation.deactivation_epoch = u64MAX then
      match validators.findIdx? (fun v => v.validator_account = sd.delegation.voter_pubkey) with
      | none => Except.error "Validator not found"
      | some vidx =>
        if s.effective = 0 then
          Except.ok (some ⟨s.index, MergeableStakeKind.activationEpoch,
            sd.credits_observed, s.record.stake_account, vidx⟩)
        else if s.activating = 0 ∧ s.deactivating = 0 then
          Except.ok (some ⟨s.index, MergeableStakeKind.fullyActive,
            sd.credits_observed, s.record.stake_account, vidx⟩)
        else
          Except.ok none
    else
      Except.ok none

/-- The `mergeable_stakes` vector: classification mapped over the snapshot
in order, dropping non-mergeable entries. -/
def mergeableStakes (validators : List ValidatorRecord) (stakes : List StakeInfo) :
    Except String (List MergeableStakeInfo) :=
  (stakes.mapM (classifyMergeable validators)).map List.reduceOption

/-- The merge-compatibility test of the scan (lines 91-116): same validator
index, equal `credits_observed`, same kind. -/
def mergeMatch (dst src : MergeableStakeInfo) : Prop :=
  dst.validator_index = src.validator_index ∧
  dst.credits_observed = src.credits_observed ∧
  dst.kind = src.kind

instance (dst src : MergeableStakeInfo) : Decidable (mergeMatch dst src) := by
  unfold mergeMatch
  infer_instance

/-- Inner destination scan for one source index: destinations `0..source`
in order, stopping at the first full match (the source submits there and
`break`s out of the inner loop). -/
def findMergeDest (ms : List MergeableStakeInfo) (src : Nat) : Option Nat :=
  (List.range src).find? (fun d => decide (mergeMatch (ms.getD d default) (ms.getD src default)))

/-- Counters and emitted operations of a `merge_stakes::process` run.  An
emitted operation is recorded as the `(destination_index, source_index)`
pair into the mergeable list (the built instruction carries those entries'
addresses and marinade indices). -/
structure MergeState where
  ops : List (Nat × Nat)
  count_tx_ok : Nat
  count_tx_err : Nat
  count_processed : Nat
deriving Repr, DecidableEq

/-- One iteration of the outer source loop: find the first matching
destination; if found, submit one merge batch (outcome from the oracle,
indexed by the submission counter) and update the counters. -/
def mergeSourceStep (ms : List MergeableStakeInfo) (txOk : Nat → Bool)
    (st : MergeState) (src : Nat) : MergeState :=
  match findMergeDest ms src with
  | none => st
  | some d =>
    { ops := st.ops ++ [(d, src)]
      count_tx_ok := st.count_tx_ok + (if txOk st.count_processed then 1 else 0)
      count_tx_err := st.count_tx_err + (if txOk st.count_processed then 0 else 1)
      count_processed := st.count_processed + 1 }

/-- `merge_stakes::process` scan: sources from the last index backward
(`for source_index in (1..len).rev()`).  The elapsed-time exit
(`max_seconds`) only truncates this scan to a prefix of the same emission
sequence; it is modelled here in the `max_seconds == 0` mode, in which the
source skips the time check and performs the full scan. -/
def mergeProcess (ms : List MergeableStakeInfo) (txOk : Nat → Bool) : MergeState :=
  (((List.range ms.length).drop 1).reverse).foldl (mergeSourceStep ms txOk) ⟨[], 0, 0, 0⟩

/-- Folding the source loop only appends operations; each appended pair is
the first-match result for its source, and sources appear in scan order. -/
theorem mergeFold_spec (ms : List MergeableStakeInfo) (txOk : Nat → Bool) :
    ∀ (srcs : List Nat) (st : MergeState), ∃ newOps,
      (srcs.foldl (mergeSourceStep ms txOk) st).ops = st.ops ++ newOps ∧
      (newOps.map Prod.snd).Sublist srcs ∧
      ∀ p ∈ newOps, findMergeDest ms p.2 = some p.1 := by
  intro srcs
  induction srcs with
  | nil => intro st; exact ⟨[], by simp, List.nil_sublist _, by simp⟩
  | cons src rest ih =>
    intro st
    simp only [List.foldl_cons]
    obtain ⟨newOps, hops, hsub, hmem⟩ := ih (mergeSourceStep ms txOk st src)
    cases hfind : findMergeDest ms src with
    | none =>
      refine ⟨newOps, ?_, hsub.cons src, hmem⟩
      rw [hops]
      simp [mergeSourceStep, hfind]
    | some d =>
      refine ⟨(d, src) :: newOps, ?_, ?_, ?_⟩
      · rw [hops]
        simp [mergeSourceStep, hfind]
      · exact hsub.cons₂ src
      · intro p hp
        rcases List.mem_cons.mp hp with h | h
        · rw [h]; exact hfind
        · exact hmem p h

/-- Unfolding of a successful destination search: the destination is below
the source and the pair fully matches. -/
theorem findMergeDest_eq_some {ms : List MergeableStakeInfo} {s d : Nat}
    (h : findMergeDest ms s = some d) :
    d < s ∧ mergeMatch (ms.getD d default) (ms.getD s default) := by
  unfold findMergeDest at h
  have hp := List.find?_some h
  have hm := List.mem_of_find?_eq_some h
  refine ⟨List.mem_range.mp hm, ?_⟩
  simpa using hp

/-- C4: every merge operation the Consolidator generates pairs a destination
with a strictly larger source index, the two entries share the same
validator index, equal `credits_observed` and the same `MergeableKind`,
sources are scanned from the last index backward, and for any two positions
differing in validator, kind, or credits_observed no merge operation is ever
generated. -/
theorem mergeProcess_spec (validators : List ValidatorRecord)
    (stakes : List StakeInfo) (txOk : Nat → Bool)
    (ms : List MergeableStakeInfo)
    (hclass : mergeableStakes validators stakes = Except.ok ms) :
    (∀ p ∈ (mergeProcess ms txOk).ops, p.1 < p.2 ∧ p.2 < ms.length ∧
      mergeMatch (ms.getD p.1 default) (ms.getD p.2 default)) ∧
    ((mergeProcess ms txOk).ops.map Prod.snd).Pairwise (fun a b => b < a) ∧
    (∀ d s : Nat, d < s → ¬ mergeMatch (ms.getD d default) (ms.getD s default) →
      (d, s) ∉ (mergeProcess ms txOk).ops) := by
  obtain ⟨newOps, hops, hsub, hmem⟩ :=
    mergeFold_spec ms txOk (((List.range ms.length).drop 1).reverse) ⟨[], 0, 0, 0⟩
  have hops' : (mergeProcess ms txOk).ops = newOps := by
    simpa [mergeProcess] using hops
  have hsrcs : ∀ p ∈ (mergeProcess ms txOk).ops,
      p.2 ∈ ((List.range ms.length).drop 1).reverse := by
    intro p hp
    rw [hops'] at hp
    exact hsub.mem (List.mem_map_of_mem Prod.snd hp)
  refine ⟨?_, ?_, ?_⟩
  · intro p hp
    have hfd : findMergeDest ms p.2 = some p.1 := by
      rw [hops'] at hp
      exact hmem p hp
    obtain ⟨hlt, hmatch⟩ := findMergeDest_eq_some hfd
    have hs2 : p.2 < ms.length := by
      have := hsrcs p hp
      rw [List.mem_reverse] at this
      exact List.mem_range.mp (List.mem_of_mem_drop this)
    exact ⟨hlt, hs2, hmatch⟩
  · rw [hops']
    refine List.Pairwise.sublist hsub ?_
    rw [List.pairwise_reverse]
    have : List.Pairwise (· < ·) ((List.range ms.length).drop 1) :=
      List.Pairwise.sublist (List.drop_sublist 1 _) (List.pairwise_lt_range _)
    exact this.imp (fun h => h)
  · intro d s hds hnm hmemop
    have hfd : findMergeDest ms s = some d := by
      rw [hops'] at hmemop
      exact hmem (d, s) hmemop
    exact hnm (findMergeDest_eq_some hfd).2

/-- Witness for C4: two `FullyActive` entries on validator 0 with equal
credits and one entry on validator 1 — the only generated merge is
destination 0 ← source 1, and the mismatched pair (0,2) is never generated. -/
theorem mergeProcess_spec_witness :
    mergeableStakes [⟨5, 0, 0, 0⟩, ⟨6, 0, 0, 0⟩]
      [⟨0, ⟨100, 0, 0⟩, some ⟨⟨5, 10, u64MAX⟩, 42⟩, 0, 7, 0, 0⟩,
       ⟨1, ⟨101, 0, 0⟩, some ⟨⟨5, 11, u64MAX⟩, 42⟩, 0, 8, 0, 0⟩,
       ⟨2, ⟨102, 0, 0⟩, some ⟨⟨6, 12, u64MAX⟩, 42⟩, 0, 9, 0, 0⟩] =
      Except.ok
        [⟨0, MergeableStakeKind.fullyActive, 42, 100, 0⟩,
         ⟨1, MergeableStakeKind.fullyActive, 42, 101, 0⟩,
         ⟨2, MergeableStakeKind.fullyActive, 42, 102, 1⟩] ∧
    (0, 1) ∈ (mergeProcess
      [⟨0, MergeableStakeKind.fullyActive, 42, 100, 0⟩,
       ⟨1, MergeableStakeKind.fullyActive, 42, 101, 0⟩,
       ⟨2, MergeableStakeKind.fullyActive, 42, 102, 1⟩] (fun _ => true)).ops ∧
    (0, 2) ∉ (mergeProcess
      [⟨0, MergeableStakeKind.fullyActive, 42, 100, 0⟩,
       ⟨1, MergeableStakeKind.fullyActive, 42, 101, 0⟩,
       ⟨2, MergeableStakeKind.fullyActive, 42, 102, 1⟩] (fun _ => true)).ops := by
  have hclass : mergeableStakes [⟨5, 0, 0, 0⟩, ⟨6, 0, 0, 0⟩]
      [⟨0, ⟨100, 0, 0⟩, some ⟨⟨5, 10, u64MAX⟩, 42⟩, 0, 7, 0, 0⟩,
       ⟨1, ⟨101, 0, 0⟩, some ⟨⟨5, 11, u64MAX⟩, 42⟩, 0, 8, 0, 0⟩,
       ⟨2, ⟨102, 0, 0⟩, some ⟨⟨6, 12, u64MAX⟩, 42⟩, 0, 9, 0, 0⟩] =
      Except.ok
        [⟨0, MergeableStakeKind.fullyActive, 42, 100, 0⟩,
         ⟨1, MergeableStakeKind.fullyActive, 42, 101, 0⟩,
         ⟨2, MergeableStakeKind.fullyActive, 42, 102, 1⟩] := by
    rfl
  have h := mergeProcess_spec _ _ (fun _ => true) _ hclass
  refine ⟨hclass, by decide, ?_⟩
  exact h.2.2 0 2 (by decide) (by decide)

/- Price/Accrual Crank: `update_price.rs` -/

/-- The two operations the crank can emit: `update_active(stake_account,
stake_index, validator_index)` and `update_deactivated(stake_account,
stake_index)`. -/
inductive CrankOp where
  | updateActive (stake_account stake_index validator_index : Nat)
  | updateDeactivated (stake_account stake_index : Nat)
deriving Repr, DecidableEq

/-- The `validator_indices` map of `update_price.rs`: a `HashMap` collected
from `(validator_account, index)` pairs, so with duplicate keys the last
index wins.  Modelled as the last matching position in the list. -/
def validatorIndexLookup (validators : List ValidatorRecord) (voter : Nat) :
    Option Nat :=
  ((validators.enum.filter (fun p => decide (p.2.validator_account = voter))).map
    Prod.fst).getLast?

/-- What the crank loop body (lines 79-204) decides for one position.
`skip` = the two `continue` branches (already observed this epoch, or active
with unchanged delegated amount); `unsupported` = cooling down with residual
effective stake, logged and counted as processed but no operation;
`emit` = one operation, its own batch; `panic` = one of the two `expect`s. -/
inductive CrankDecision where
  | skip
  | unsupported
  | emit (op : CrankOp)
  | panic (msg : String)
deriving Repr, DecidableEq

/-- The decision ladder of the crank loop body, translated from the source:
skip a position observed this epoch; panic on an undelegated account
("Undelegated stake under control"); for a non-deactivating delegation skip
when the delegated amount is unchanged, else emit `update_active`
(panicking when the vote key is unknown); else (deactivation pending):
emit `update_deactivated` when `effective == 0`, otherwise the explicitly
unsupported cooling-down case. -/
def crankDecide (epoch : Nat) (validators : List ValidatorRecord) (s : StakeInfo) :
    CrankDecision :=
  if s.record.last_update_epoch = epoch then CrankDecision.skip
  else
    match s.stake with
    | none => CrankDecision.panic "Undelegated stake under control"
    | some sd =>
      if sd.delegation.deactivation_epoch = u64MAX then
        if sd.delegation.stake = s.record.last_update_delegated_lamports then
          CrankDecision.skip
        else
          match validatorIndexLookup validators sd.delegation.voter_pubkey with
          | none => CrankDecision.panic "Unknown validator"
          | some vidx =>
            CrankDecision.emit (CrankOp.updateActive s.record.stake_account s.index vidx)
      else if s.effective = 0 then
        CrankDecision.emit (CrankOp.updateDeactivated s.record.stake_account s.index)
      else
        CrankDecision.unsupported

/-- The operation (if any) the crank mandates for one position, or the
panic: the decision ladder with the `skip`/`unsupported` distinction
forgotten. -/
def crankOpFor (epoch : Nat) (validators : List ValidatorRecord) (s : StakeInfo) :
    Except String (Option CrankOp) :=
  match crankDecide epoch validators s with
  | CrankDecision.skip => Except.ok none
  | CrankDecision.unsupported => Except.ok none
  | CrankDecision.emit op => Except.ok (some op)
  | CrankDecision.panic msg => Except.error msg

/-- Counters and emitted operations of an `update_price` run. -/
structure CrankState where
  ops : List CrankOp
  count_tx_ok : Nat
  count_tx_err : Nat
  count_processed : Nat
deriving Repr, DecidableEq

/-- One submission: the operation is its own batch, submitted immediately;
the outcome oracle is indexed by the number of prior submissions. -/
def crankSubmit (txOk : Nat → Bool) (st : CrankState) (op : CrankOp) : CrankState :=
  { ops := st.ops ++ [op]
    count_tx_ok := st.count_tx_ok +
      (if txOk (st.count_tx_ok + st.count_tx_err) then 1 else 0)
    count_tx_err := st.count_tx_err +
      (if txOk (st.count_tx_ok + st.count_tx_err) then 0 else 1)
    count_processed := st.count_processed + 1 }

/-- The crank loop over the (already reversed) stake list.  The two `skip`
branches `continue` without touching `count_processed`, the unsupported
cooling-down branch counts the position as processed without submitting, and
an emitted operation is submitted immediately, exactly as in the source. -/
def crankLoop (epoch : Nat) (validators : List ValidatorRecord) (txOk : Nat → Bool) :
    List StakeInfo → CrankState → Except String CrankState
  | [], st => Except.ok st
  | s :: rest, st =>
    match crankDecide epoch validators s with
    | CrankDecision.skip => crankLoop epoch validators txOk rest st
    | CrankDecision.unsupported =>
      crankLoop epoch validators txOk rest
        { st with count_processed := st.count_processed + 1 }
    | CrankDecision.emit op =>
      crankLoop epoch validators txOk rest (crankSubmit txOk st op)
    | CrankDecision.panic msg => Except.error msg

/-- `UpdatePriceOptions::process`: early `Ok(true)` when no stake account
has `last_update_epoch < clock.epoch`; otherwise run the loop and return
`Ok(count_tx_err == 0)`. -/
def updatePriceProcess (epoch : Nat) (validators : List ValidatorRecord)
    (txOk : Nat → Bool) (stakes : List StakeInfo) :
    Except String (Bool × CrankState) :=
  if stakes.all (fun s => decide (¬ s.record.last_update_epoch < epoch)) then
    Except.ok (true, ⟨[], 0, 0, 0⟩)
  else
    (crankLoop epoch validators txOk stakes ⟨[], 0, 0, 0⟩).map
      (fun st => (decide (st.count_tx_err = 0), st))

/-- The crank loop emits exactly the per-position decisions, in list order:
it agrees with `mapM crankOpFor` both on the emitted operations and on the
panic behaviour. -/
theorem crankLoop_mapM (epoch : Nat) (validators : List ValidatorRecord)
    (txOk : Nat → Bool) :
    ∀ (stakes : List StakeInfo) (st : CrankState),
      (∀ plans, stakes.mapM (crankOpFor epoch validators) = Except.ok plans →
        ∃ st', crankLoop epoch validators txOk stakes st = Except.ok st' ∧
          st'.ops = st.ops ++ plans.reduceOption) ∧
      (∀ e, stakes.mapM (crankOpFor epoch validators) = Except.error e →
        crankLoop epoch validators txOk stakes st = Except.error e) := by
  intro stakes
  induction stakes with
  | nil =>
    intro st
    constructor
    · intro plans hplans
      rw [List.mapM_nil] at hplans
      cases hplans
      exact ⟨st, rfl, by simp [List.reduceOption]⟩
    · intro e he
      rw [List.mapM_nil] at he
      exact absurd he (by simp [pure, Except.pure])
  | cons s rest ih =>
    intro st
    have hcons : (s :: rest).mapM (crankOpFor epoch validators) =
        (crankOpFor epoch validators s).bind (fun p =>
          (rest.mapM (crankOpFor epoch validators)).bind (fun ps =>
            Except.ok (p :: ps))) := by
      rw [List.mapM_cons]
      rfl
    constructor
    · intro plans hplans
      rw [hcons] at hplans
      cases hdec : crankDecide epoch validators s with
      | skip =>
        have hop : crankOpFor epoch validators s = Except.ok none := by
          simp [crankOpFor, hdec]
        rw [hop] at hplans
        simp only [Except.bind] at hplans
        cases hrest : rest.mapM (crankOpFor epoch validators) with
        | error e => rw [hrest] at hplans; exact absurd hplans (by simp)
        | ok ps =>
          rw [hrest] at hplans
          simp only [Except.ok.injEq] at hplans
          subst hplans
          obtain ⟨st', hl, ho⟩ := (ih st).1 ps hrest
          refine ⟨st', ?_, by simpa [List.reduceOption] using ho⟩
          simpa [crankLoop, hdec] using hl
      | unsupported =>
        have hop : crankOpFor epoch validators s = Except.ok none := by
          simp [crankOpFor, hdec]
        rw [hop] at hplans
        simp only [Except.bind] at hplans
        cases hrest : rest.mapM (crankOpFor epoch validators) with
        | error e => rw [hrest] at hplans; exact absurd hplans (by simp)
        | ok ps =>
          rw [hrest] at hplans
          simp only [Except.ok.injEq] at hplans
          subst hplans
          obtain ⟨st', hl, ho⟩ :=
            (ih { st with count_processed := st.count_processed + 1 }).1 ps hrest
          refine ⟨st', ?_, by simpa [List.reduceOption] using ho⟩
          simpa [crankLoop, hdec] using hl
      | emit op =>
        have hop : crankOpFor epoch validators s = Except.ok (some op) := by
          simp [crankOpFor, hdec]
        rw [hop] at hplans
        simp only [Except.bind] at hplans
        cases hrest : rest.mapM (crankOpFor epoch validators) with
        | error e => rw [hrest] at hplans; exact absurd hplans (by simp)
        | ok ps =>
          rw [hrest] at hplans
          simp only [Except.ok.injEq] at hplans
          subst hplans
          obtain ⟨st', hl, ho⟩ := (ih (crankSubmit txOk st op)).1 ps hrest
          refine ⟨st', ?_, ?_⟩
          · simpa [crankLoop, hdec] using hl
          · rw [ho]
            simp [crankSubmit, List.reduceOption]
      | panic msg =>
        have hop : crankOpFor epoch validators s = Except.error msg := by
          simp [crankOpFor, hdec]
        rw [hop] at hplans
        exact absurd hplans (by simp [Except.bind])
    · intro e he
      rw [hcons] at he
      cases hdec : crankDecide epoch validators s with
      | skip =>
        have hop : crankOpFor epoch validators s = Except.ok none := by
          simp [crankOpFor, hdec]
        rw [hop] at he
        simp only [Except.bind] at he
        cases hrest : rest.mapM (crankOpFor epoch validators) with
        | ok ps => rw [hrest] at he; exact absurd he (by simp)
        | error e' =>
          rw [hrest] at he
          simp only [Except.error.injEq] at he
          subst he
          have := (ih st).2 e' hrest
          simpa [crankLoop, hdec] using this
      | unsupported =>
        have hop : crankOpFor epoch validators s = Except.ok none := by
          simp [crankOpFor, hdec]
        rw [hop] at he
        simp only [Except.bind] at he
        cases hrest : rest.mapM (crankOpFor epoch validators) with
        | ok ps => rw [hrest] at he; exact absurd he (by simp)
        | error e' =>
          rw [hrest] at he
          simp only [Except.error.injEq] at he
          subst he
          have := (ih { st with count_processed := st.count_processed + 1 }).2 e' hrest
          simpa [crankLoop, hdec] using this
      | emit op =>
        have hop : crankOpFor epoch validators s = Except.ok (some op) := by
          simp [crankOpFor, hdec]
        rw [hop] at he
        simp only [Except.bind] at he
        cases hrest : rest.mapM (crankOpFor epoch validators) with
        | ok ps => rw [hrest] at he; exact absurd he (by simp)
        | error e' =>
          rw [hrest] at he
          simp only [Except.error.injEq] at he
          subst he
          have := (ih (crankSubmit txOk st op)).2 e' hrest
          simpa [crankLoop, hdec] using this
      | panic msg =>
        have hop : crankOpFor epoch validators s = Except.error msg := by
          simp [crankOpFor, hdec]
        rw [hop] at he
        simp only [Except.bind, Except.error.injEq] at he
        subst he
        simp [crankLoop, hdec]

/-- C7: the Crank emits no operation for a position already observed this
epoch, none for an Active (non-deactivating) position whose delegated amount
equals its last observed amount, and none for a Deactivating position with
nonzero effective stake (explicitly unsupported); every other Active
position gets exactly one `update_active` operation (validator index by
vote-key lookup) and every fully deactivated position exactly one
`update_deactivated` operation — and the pass emits exactly these per-position
operations, in order. -/
theorem crank_per_position_spec (epoch : Nat) (validators : List ValidatorRecord)
    (txOk : Nat → Bool) :
    (∀ s : StakeInfo, s.record.last_update_epoch = epoch →
      crankOpFor epoch validators s = Except.ok none) ∧
    (∀ (s : StakeInfo) (sd : StakeData), s.stake = some sd →
      sd.delegation.deactivation_epoch = u64MAX →
      sd.delegation.stake = s.record.last_update_delegated_lamports →
      crankOpFor epoch validators s = Except.ok none) ∧
    (∀ (s : StakeInfo) (sd : StakeData), s.stake = some sd →
      s.record.last_update_epoch ≠ epoch →
      sd.delegation.deactivation_epoch ≠ u64MAX → s.effective ≠ 0 →
      crankDecide epoch validators s = CrankDecision.unsupported ∧
      crankOpFor epoch validators s = Except.ok none) ∧
    (∀ (s : StakeInfo) (sd : StakeData) (vidx : Nat), s.stake = some sd →
      s.record.last_update_epoch ≠ epoch →
      sd.delegation.deactivation_epoch = u64MAX →
      sd.delegation.stake ≠ s.record.last_update_delegated_lamports →
      validatorIndexLookup validators sd.delegation.voter_pubkey = some vidx →
      crankOpFor epoch validators s =
        Except.ok (some (CrankOp.updateActive s.record.stake_account s.index vidx))) ∧
    (∀ (s : StakeInfo) (sd : StakeData), s.stake = some sd →
      s.record.last_update_epoch ≠ epoch →
      sd.delegation.deactivation_epoch ≠ u64MAX → s.effective = 0 →
      crankOpFor epoch validators s =
        Except.ok (some (CrankOp.updateDeactivated s.record.stake_account s.index))) ∧
    (∀ (stakes : List StakeInfo) (plans : List (Option CrankOp)) (st' : CrankState),
      stakes.mapM (crankOpFor epoch validators) = Except.ok plans →
      crankLoop epoch validators txOk stakes ⟨[], 0, 0, 0⟩ = Except.ok st' →
      st'.ops = plans.reduceOption) := by
  refine ⟨?_, ?_, ?_, ?_, ?_, ?_⟩
  · intro s h
    simp [crankOpFor, crankDecide, h]
  · intro s sd hs hde hst
    by_cases h : s.record.last_update_epoch = epoch
    · simp [crankOpFor, crankDecide, h]
    · simp [crankOpFor, crankDecide, h, hs, hde, hst]
  · intro s sd hs h hde heff
    constructor
    · simp [crankDecide, h, hs, hde, heff]
    · simp [crankOpFor, crankDecide, h, hs, hde, heff]
  · intro s sd vidx hs h hde hst hlk
    simp [crankOpFor, crankDecide, h, hs, hde, hst, hlk]
  · intro s sd hs h hde heff
    simp [crankOpFor, crankDecide, h, hs, hde, heff]
  · intro stakes plans st' hplans hloop
    obtain ⟨st'', hl, ho⟩ := (crankLoop_mapM epoch validators txOk stakes ⟨[], 0, 0, 0⟩).1
      plans hplans
    rw [hloop] at hl
    cases hl
    simpa using ho

/-- Witness for C7: epoch 5, one validator with vote key 9; an Active
position with changed delegated amount mandates exactly one `update_active`
operation, and the loop over that singleton snapshot emits exactly it. -/
theorem crank_per_position_spec_witness :
    crankOpFor 5 [⟨9, 0, 0, 0⟩]
        ⟨2, ⟨77, 50, 3⟩, some ⟨⟨9, 60, u64MAX⟩, 4⟩, 0, 60, 0, 0⟩ =
      Except.ok (some (CrankOp.updateActive 77 2 0)) ∧
    (∃ st', crankLoop 5 [⟨9, 0, 0, 0⟩] (fun _ => true)
        [⟨2, ⟨77, 50, 3⟩, some ⟨⟨9, 60, u64MAX⟩, 4⟩, 0, 60, 0, 0⟩] ⟨[], 0, 0, 0⟩ =
        Except.ok st' ∧ st'.ops = [CrankOp.updateActive 77 2 0]) := by
  constructor
  · exact (crank_per_position_spec 5 [⟨9, 0, 0, 0⟩] (fun _ => true)).2.2.2.1
      ⟨2, ⟨77, 50, 3⟩, some ⟨⟨9, 60, u64MAX⟩, 4⟩, 0, 60, 0, 0⟩
      ⟨⟨9, 60, u64MAX⟩, 4⟩ 0 rfl (by decide) rfl (by decide) (by rfl)
  · refine ⟨⟨[CrankOp.updateActive 77 2 0], 1, 0, 1⟩, by rfl, rfl⟩

/- A stable sort, modelling Rust's stable `Vec::sort_by_key`. -/

/-- Insert `a` in front of the first element it compares `le` to (ties keep
`a`, the earlier element, first — stability). -/
def insertBy {α : Type} (le : α → α → Bool) (a : α) : List α → List α
  | [] => [a]
  | b :: t => if le a b then a :: b :: t else b :: insertBy le a t

/-- Stable insertion sort: the model of Rust's stable `sort_by_key` /
`sort_by` (any two stable sorts agree, and this one is structurally
recursive, hence executable in proofs). -/
def sortBy {α : Type} (le : α → α → Bool) : List α → List α
  | [] => []
  | a :: t => insertBy le a (sortBy le t)

theorem mem_insertBy {α : Type} (le : α → α → Bool) (a : α) :
    ∀ (l : List α) (x : α), x ∈ insertBy le a l ↔ x = a ∨ x ∈ l := by
  intro l
  induction l with
  | nil => intro x; simp [insertBy]
  | cons b t ih =>
    intro x
    by_cases h : le a b
    · simp [insertBy, h]
    · simp only [insertBy, if_neg h, List.mem_cons, ih]
      tauto

theorem insertBy_perm {α : Type} (le : α → α → Bool) (a : α) :
    ∀ l : List α, (insertBy le a l).Perm (a :: l) := by
  intro l
  induction l with
  | nil => simp [insertBy]
  | cons b t ih =>
    by_cases h : le a b
    · simp [insertBy, h]
    · have heq : insertBy le a (b :: t) = b :: insertBy le a t := by
        simp [insertBy, h]
      rw [heq]
      exact (ih.cons b).trans (List.Perm.swap a b t)

theorem sortBy_perm {α : Type} (le : α → α → Bool) :
    ∀ l : List α, (sortBy le l).Perm l := by
  intro l
  induction l with
  | nil => simp [sortBy]
  | cons a t ih =>
    exact (insertBy_perm le a (sortBy le t)).trans (ih.cons a)

theorem pairwise_insertBy {α : Type} (le : α → α → Bool)
    (htrans : ∀ a b c, le a b = true → le b c = true → le a c = true)
    (htotal : ∀ a b, (le a b || le b a) = true) (a : α) :
    ∀ l : List α, l.Pairwise (fun x y => le x y = true) →
      (insertBy le a l).Pairwise (fun x y => le x y = true) := by
  intro l
  induction l with
  | nil => intro _; simp [insertBy]
  | cons b t ih =>
    intro hp
    obtain ⟨hb, ht⟩ := List.pairwise_cons.mp hp
    by_cases h : le a b
    · rw [insertBy, if_pos h, List.pairwise_cons]
      refine ⟨?_, hp⟩
      intro x hx
      rcases List.mem_cons.mp hx with rfl | hx'
      · exact h
      · exact htrans a b x h (hb x hx')
    · rw [insertBy, if_neg h, List.pairwise_cons]
      refine ⟨?_, ih ht⟩
      intro x hx
      rcases (mem_insertBy le a t x).mp hx with heq | hx'
      · subst heq
        have := htotal x b
        rw [Bool.or_eq_true] at this
        rcases this with h' | h'
        · exact absurd h' h
        · exact h'
      · exact hb x hx'

theorem pairwise_sortBy {α : Type} (le : α → α → Bool)
    (htrans : ∀ a b c, le a b = true → le b c = true → le a c = true)
    (htotal : ∀ a b, (le a b || le b a) = true) :
    ∀ l : List α, (sortBy le l).Pairwise (fun x y => le x y = true) := by
  intro l
  induction l with
  | nil => simp [sortBy]
  | cons a t ih => exact pairwise_insertBy le htrans htotal a (sortBy le t) ih

theorem stable_insertBy {α : Type} (le : α → α → Bool) (key : α → Nat) (a : α) :
    ∀ l : List α, l.Pairwise (fun x y => le y x = true → key x < key y) →
      (∀ y ∈ l, key a < key y) →
      (insertBy le a l).Pairwise (fun x y => le y x = true → key x < key y) := by
  intro l
  induction l with
  | nil => intro _ _; simp [insertBy]
  | cons b t ih =>
    intro hp hlt
    obtain ⟨hb, ht⟩ := List.pairwise_cons.mp hp
    by_cases h : le a b
    · rw [insertBy, if_pos h, List.pairwise_cons]
      refine ⟨?_, hp⟩
      intro x hx _
      exact hlt x hx
    · rw [insertBy, if_neg h, List.pairwise_cons]
      refine ⟨?_, ih ht (fun y hy => hlt y (List.mem_cons_of_mem b hy))⟩
      intro x hx
      rcases (mem_insertBy le a t x).mp hx with heq | hx'
      · subst heq
        intro hab
        exact absurd hab h
      · exact hb x hx'

/-- Stability of the sort in pairwise form: when the input is strictly
increasing along `key` (such as original list indices), any two tied
elements of the output (the order relation holds both ways) appear in `key`
order. -/
theorem stable_sortBy {α : Type} (le : α → α → Bool) (key : α → Nat) :
    ∀ l : List α, l.Pairwise (fun x y => key x < key y) →
      (sortBy le l).Pairwise (fun x y => le y x = true → key x < key y) := by
  intro l
  induction l with
  | nil => intro _; simp [sortBy]
  | cons a t ih =>
    intro hp
    obtain ⟨ha, ht⟩ := List.pairwise_cons.mp hp
    refine stable_insertBy le key a (sortBy le t) (ih ht) ?_
    intro y hy
    exact ha y ((sortBy_perm le t).mem_iff.mp hy)

/- Stake-Delta Allocator: `stake_delta.rs` -/

/-- The four counters `State::stake_delta` reads: the fresh reserve balance
(an RPC read) and three fields of the live state. -/
structure DeltaInputs where
  reserve_balance : Nat
  rent_exempt_for_token_acc : Nat
  total_cooling_down : Nat
  circulating_ticket_balance : Nat
deriving Repr, DecidableEq

/-- Modelled from the spec: `State::stake_delta` of the on-chain program
(the `marinade-finance` program crate is not part of this tree; only its
callers are).  Spec §3: `delta = (reserve_balance − rent_exempt_floor) +
total_cooling_down − circulating_commitments`, signed 128-bit. -/
def stake_delta (d : DeltaInputs) : Int :=
  ((d.reserve_balance : Int) - (d.rent_exempt_for_token_acc : Int))
    + (d.total_cooling_down : Int) - (d.circulating_ticket_balance : Int)

/-- Modelled from the spec: `validator_stake_target` of the on-chain
program's validator system (not part of this tree).  Spec §4.3:
`target_i = round(score_i * target_total / total_score)` (round half up in
integers). -/
def validator_stake_target (record : ValidatorRecord)
    (total_stake_target total_score : Nat) : Nat :=
  (record.score * total_stake_target + total_score / 2) / total_score

/-- The `ValidatorInfo` entries built once at the start of
`StakeDeltaOptions::process` (lines 107-129): list index, record, and
`stake_delta = target − active_balance` (the validator's need). -/
structure ValidatorInfo where
  index : Nat
  record : ValidatorRecord
  stake_delta : Int
deriving Repr, DecidableEq

/-- `validators_info` from the enumerated validator list. -/
def mkValidatorsInfo (validator_list : List ValidatorRecord)
    (total_stake_target total_score : Nat) : List ValidatorInfo :=
  validator_list.enum.map (fun p =>
    ⟨p.1, p.2, (validator_stake_target p.2 total_stake_target total_score : Int)
      - (p.2.active_balance : Int)⟩)

/-- What the allocator observes from the outside world at one step: the
fresh `stake_delta` inputs (balance read + live state), the live
`extra_stake_delta_runs`, the submission outcome, and whether the wall-clock
budget is exhausted at the end of the step.  One step index is consumed per
loop iteration that reaches its fresh reads; the state behind an index is
the one refreshed by the preceding `marinade.update()`. -/
structure IterView where
  delta_inputs : DeltaInputs
  extra_stake_delta_runs : Nat
  txOk : Bool
  elapsed_exceeds : Bool

/-- One emitted "open new position, deposit into validator" operation:
the validator entry it was emitted for, the amount, and the step at which
the delta was recomputed immediately before emission. -/
structure DepositOp where
  vi : ValidatorInfo
  amount : Nat
  step : Nat
deriving Repr, DecidableEq

/-- Counters and emitted operations of the surplus path. -/
structure SurplusSt where
  ops : List DepositOp
  count_tx_ok : Nat
  count_tx_err : Nat
  count_processed : Nat
deriving Repr, DecidableEq

/-- The surplus (`total_stake_delta > 0`) loop of
`StakeDeltaOptions::process` (lines 153-261), over the validators already
sorted descending by score: skip a validator needing nothing or less than
`min_stake`; skip one that ran this epoch unless extra runs remain;
recompute the delta from a fresh snapshot and stop the whole pass if it is
no longer actionable; otherwise stake `min(need, delta)` as its own
single-operation batch, submit, count, and continue unless the operation
limit is reached or the budget is exhausted. -/
def surplusLoop (ms epoch limit : Nat) (env : Nat → IterView) :
    List ValidatorInfo → Nat → SurplusSt → SurplusSt
  | [], _, st => st
  | vi :: rest, step, st =>
    if vi.stake_delta < 0 then surplusLoop ms epoch limit env rest step st
    else if vi.stake_delta < (ms : Int) then surplusLoop ms epoch limit env rest step st
    else if vi.record.last_stake_delta_epoch = epoch ∧
        (env step).extra_stake_delta_runs = 0 then
      surplusLoop ms epoch limit env rest step st
    else
      let delta := stake_delta (env step).delta_inputs
      if delta ≤ 0 ∨ (0 < delta ∧ delta < (ms : Int)) then st
      else
        let to_stake := (min vi.stake_delta delta).toNat
        let st' : SurplusSt := ⟨st.ops ++ [⟨vi, to_stake, step⟩],
          st.count_tx_ok + (if (env step).txOk then 1 else 0),
          st.count_tx_err + (if (env step).txOk then 0 else 1),
          st.count_processed + 1⟩
        if 0 < limit ∧ limit ≤ st'.count_processed then st'
        else if (env step).elapsed_exceeds then st'
        else surplusLoop ms epoch limit env rest (step + 1) st'

/-- One emitted "retire / split-retire this position" operation of the
shortfall path: the validator entry, the position, and the submission step. -/
structure DeactivateOp where
  vi : ValidatorInfo
  sInfo : StakeInfo
  step : Nat
deriving Repr, DecidableEq

/-- Counters and emitted operations of the shortfall path. -/
structure ShortSt where
  ops : List DeactivateOp
  count_tx_ok : Nat
  count_tx_err : Nat
  count_processed : Nat
deriving Repr, DecidableEq

/-- The delegated amount of a position (`delegation().unwrap().stake`; only
applied to positions that passed the delegated filter). -/
def delegatedOf (s : StakeInfo) : Nat :=
  (s.stake.map (fun sd => sd.delegation.stake)).getD 0

/-- The position filter of the shortfall path (lines 323-333): delegated to
this validator and not deactivating. -/
def unstakeFilter (vi : ValidatorInfo) (s : StakeInfo) : Bool :=
  match s.stake with
  | some sd => decide (sd.delegation.voter_pubkey = vi.record.validator_account)
      && decide (sd.delegation.deactivation_epoch = u64MAX)
  | none => false

/-- Inner position loop of the shortfall path (lines 342-416), for one
validator: stop once this validator's share is satisfied; submit one
retire/split batch per position; only a successful submission contributes
its estimate (full size if smaller than what is left, else the remainder)
to the satisfied sum; stop on the operation limit.  Returns the state, the
next step index, and `sum_maybe_deactivated_this_validator`. -/
def shortfallInner (limit : Nat) (env : Nat → IterView) (vi : ValidatorInfo)
    (to_unstake_v : Nat) :
    List StakeInfo → Nat → Nat → Nat → ShortSt → ShortSt × Nat × Nat
  | [], step, sum_this, _, st => (st, step, sum_this)
  | s :: rest, step, sum_this, left, st =>
    if to_unstake_v ≤ sum_this then (st, step, sum_this)
    else
      let estimated := if s.record.last_update_delegated_lamports < left then
        s.record.last_update_delegated_lamports else left
      let okFlag := (env step).txOk
      let st' : ShortSt := ⟨st.ops ++ [⟨vi, s, step⟩],
        st.count_tx_ok + (if okFlag then 1 else 0),
        st.count_tx_err + (if okFlag then 0 else 1),
        st.count_processed + 1⟩
      let sum' := if okFlag then sum_this + estimated else sum_this
      let left' := if okFlag then left - estimated else left
      if 0 < limit ∧ limit ≤ st'.count_processed then (st', step + 1, sum')
      else shortfallInner limit env vi to_unstake_v rest (step + 1) sum' left' st'

/-- The shortfall (`total_stake_delta < 0`) outer loop (lines 275-431), over
the validators already sorted ascending by need: stop once the initial
target is reached or the rest of the list needs stake; recompute the delta
from a fresh snapshot and stop if no shortfall remains; skip a validator
that already ran this epoch (unconditionally — no extra-run escape here);
otherwise retire its delegated, non-deactivating positions in ascending
size order via the inner loop; stop on the operation limit or the budget. -/
def shortfallOuter (epoch limit ttu0 : Nat) (stakes_rev : List StakeInfo)
    (env : Nat → IterView) :
    List ValidatorInfo → Nat → Nat → ShortSt → ShortSt
  | [], _, _, st => st
  | vi :: rest, step, sum_total, st =>
    if ttu0 ≤ sum_total then st
    else if 0 ≤ vi.stake_delta then st
    else
      let delta := stake_delta (env step).delta_inputs
      if 0 ≤ delta then st
      else
        let total_to_unstake := (-delta).toNat
        let to_unstake_from_validator := min (-vi.stake_delta).toNat total_to_unstake
        if vi.record.last_stake_delta_epoch = epoch then
          shortfallOuter epoch limit ttu0 stakes_rev env rest (step + 1) sum_total st
        else
          let vstakes := sortBy (fun a b => decide (delegatedOf a ≤ delegatedOf b))
            (stakes_rev.filter (unstakeFilter vi))
          let r := shortfallInner limit env vi to_unstake_from_validator vstakes
            (step + 1) 0 to_unstake_from_validator st
          if 0 < limit ∧ limit ≤ r.1.count_processed then r.1
          else if (env r.2.1).elapsed_exceeds then r.1
          else shortfallOuter epoch limit ttu0 stakes_rev env rest r.2.1
            (sum_total + r.2.2) r.1

/-- What a `StakeDeltaOptions::process` run did: nothing actionable, a
surplus pass, or a shortfall pass. -/
inductive SDOutcome where
  | nothingToDo
  | staked (st : SurplusSt)
  | unstaked (st : ShortSt)
deriving Repr, DecidableEq

/-- The inputs of one `StakeDeltaOptions::process` run: the initial
`stake_delta` reads, configuration (`min_stake`, the operation limit), the
clock epoch, the validator-system totals, and the two snapshot lists
(`stakes_reversed` is `stakes_info_reversed()`: the stake list in reverse
index order, for index stability under swap-with-last removal). -/
structure SDParams where
  initial : DeltaInputs
  min_stake : Nat
  epoch : Nat
  limit : Nat
  total_active_balance : Nat
  total_score : Nat
  validator_list : List ValidatorRecord
  stakes_reversed : List StakeInfo

/-- `StakeDeltaOptions::process` (lines 94-449): early success when the
delta is zero or a positive amount below `min_stake`; `none` models the
`try_into::<u64>` failure on `total_active_balance + delta`; otherwise sort
`validators_info` (stable: descending score for the surplus path, ascending
need for the shortfall path) and run the corresponding loop; the result flag
is `count_tx_err == 0`. -/
def stakeDeltaProcess (p : SDParams) (env : Nat → IterView) :
    Option (Bool × SDOutcome) :=
  let total_stake_delta := stake_delta p.initial
  if total_stake_delta = 0 ∨
      (0 ≤ total_stake_delta ∧ total_stake_delta < (p.min_stake : Int)) then
    some (true, SDOutcome.nothingToDo)
  else
    let tst : Int := (p.total_active_balance : Int) + total_stake_delta
    if tst < 0 ∨ (u64MAX : Int) < tst then none
    else
      let vis := mkValidatorsInfo p.validator_list tst.toNat p.total_score
      if 0 < total_stake_delta then
        let sorted := sortBy (fun a b => decide (b.record.score ≤ a.record.score)) vis
        let st := surplusLoop p.min_stake p.epoch p.limit env sorted 0 ⟨[], 0, 0, 0⟩
        some (decide (st.count_tx_err = 0), SDOutcome.staked st)
      else
        let sorted := sortBy (fun a b => decide (a.stake_delta ≤ b.stake_delta)) vis
        let st := shortfallOuter p.epoch p.limit (-total_stake_delta).toNat
          p.stakes_reversed env sorted 0 0 ⟨[], 0, 0, 0⟩
        some (decide (st.count_tx_err = 0), SDOutcome.unstaked st)

/-- Unrolling of the surplus loop: it only appends operations; the emitted
validators form a subsequence of the processed (sorted) list; the delta
recomputation steps are consecutive from the starting step (one fresh
snapshot immediately before each emission, and nothing after a
non-actionable recomputation); every emission is for a validator needing at
least `min_stake` not blocked by the once-per-epoch rule, its recomputed
delta is actionable, and its amount is `min(need, recomputed delta)`; the
counters advance by the number of successful / failed submissions. -/
theorem surplusLoop_spec (ms epoch limit : Nat) (env : Nat → IterView) :
    ∀ (vis : List ValidatorInfo) (step : Nat) (st : SurplusSt), ∃ new,
      surplusLoop ms epoch limit env vis step st =
        ⟨st.ops ++ new,
         st.count_tx_ok + (new.filter (fun o => (env o.step).txOk)).length,
         st.count_tx_err + (new.filter (fun o => !(env o.step).txOk)).length,
         st.count_processed + new.length⟩ ∧
      (new.map (fun o => o.vi)).Sublist vis ∧
      new.map (fun o => o.step) = List.range' step new.length ∧
      ∀ o ∈ new,
        (ms : Int) ≤ o.vi.stake_delta ∧
        ¬(o.vi.record.last_stake_delta_epoch = epoch ∧
          (env o.step).extra_stake_delta_runs = 0) ∧
        0 < stake_delta (env o.step).delta_inputs ∧
        (ms : Int) ≤ stake_delta (env o.step).delta_inputs ∧
        o.amount = (min o.vi.stake_delta (stake_delta (env o.step).delta_inputs)).toNat := by
  intro vis
  induction vis with
  | nil =>
    intro step st
    exact ⟨[], by simp [surplusLoop], List.nil_sublist _, by simp, by simp⟩
  | cons vi rest ih =>
    intro step st
    by_cases h1 : vi.stake_delta < 0
    · obtain ⟨new, heq, hsub, hsteps, hmem⟩ := ih step st
      exact ⟨new, by simpa [surplusLoop, h1] using heq, hsub.cons vi, hsteps, hmem⟩
    · by_cases h2 : vi.stake_delta < (ms : Int)
      · obtain ⟨new, heq, hsub, hsteps, hmem⟩ := ih step st
        exact ⟨new, by simpa [surplusLoop, h1, h2] using heq, hsub.cons vi, hsteps, hmem⟩
      · by_cases h3 : vi.record.last_stake_delta_epoch = epoch ∧
            (env step).extra_stake_delta_runs = 0
        · obtain ⟨new, heq, hsub, hsteps, hmem⟩ := ih step st
          exact ⟨new, by simpa [surplusLoop, h1, h2, h3] using heq, hsub.cons vi,
            hsteps, hmem⟩
        · by_cases h4 : stake_delta (env step).delta_inputs ≤ 0 ∨
              (0 < stake_delta (env step).delta_inputs ∧
                stake_delta (env step).delta_inputs < (ms : Int))
          · refine ⟨[], ?_, List.nil_sublist _, by simp, by simp⟩
            simp [surplusLoop, h1, h2, h3, h4]
          · -- emission
            set o : DepositOp := ⟨vi,
              (min vi.stake_delta (stake_delta (env step).delta_inputs)).toNat, step⟩
              with ho
            have hoprops : (ms : Int) ≤ o.vi.stake_delta ∧
                ¬(o.vi.record.last_stake_delta_epoch = epoch ∧
                  (env o.step).extra_stake_delta_runs = 0) ∧
                0 < stake_delta (env o.step).delta_inputs ∧
                (ms : Int) ≤ stake_delta (env o.step).delta_inputs ∧
                o.amount =
                  (min o.vi.stake_delta (stake_delta (env o.step).delta_inputs)).toNat := by
              rw [ho]
              dsimp only
              exact ⟨by omega, h3, by omega, by omega, rfl⟩
            set st' : SurplusSt := ⟨st.ops ++ [o],
              st.count_tx_ok + (if (env step).txOk then 1 else 0),
              st.count_tx_err + (if (env step).txOk then 0 else 1),
              st.count_processed + 1⟩ with hst'
            by_cases h5 : (0 < limit ∧ limit ≤ st'.count_processed) ∨
                (env step).elapsed_exceeds
            · refine ⟨[o], ?_, ?_, by simp, ?_⟩
              · have hres : surplusLoop ms epoch limit env (vi :: rest) step st = st' := by
                  rcases h5 with h5 | h5
                  · simp [surplusLoop, h1, h2, h3, h4, hst', h5]
                  · by_cases h5a : 0 < limit ∧ limit ≤ st'.count_processed
                    · simp [surplusLoop, h1, h2, h3, h4, hst', h5a]
                    · simp [surplusLoop, h1, h2, h3, h4, hst', h5a, h5]
                rw [hres, hst']
                by_cases htx : (env step).txOk <;> simp [ho, htx]
              · simpa using List.Sublist.cons₂ vi (List.nil_sublist rest)
              · intro o' ho'
                rcases List.mem_singleton.mp ho' with rfl
                exact hoprops
            · push_neg at h5
              have hcond : ¬(0 < limit ∧ limit ≤ st'.count_processed) := by
                intro hc
                exact absurd (h5.1 hc.1) (by omega)
              have h52 : (env step).elapsed_exceeds = false := by
                simpa using h5.2
              obtain ⟨new, heq, hsub, hsteps, hmem⟩ := ih (step + 1) st'
              refine ⟨o :: new, ?_, ?_, ?_, ?_⟩
              · have hres : surplusLoop ms epoch limit env (vi :: rest) step st =
                    surplusLoop ms epoch limit env rest (step + 1) st' := by
                  simp only [surplusLoop, hst']
                  rw [if_neg h1, if_neg h2, if_neg h3, if_neg h4]
                  rw [if_neg hcond, if_neg (by simp [h52])]
                rw [hres, heq, hst']
                by_cases htx : (env step).txOk <;>
                  simp [ho, htx, Nat.add_assoc, Nat.add_comm 1]
              · exact hsub.cons₂ vi
              · simp only [List.map_cons, hsteps, List.length_cons]
                rfl
              · intro o' ho'
                rcases List.mem_cons.mp ho' with rfl | h
                · exact hoprops
                · exact hmem o' h

/-- The enumerated `validators_info` list carries strictly increasing
original indices. -/
theorem mkValidatorsInfo_index_pairwise (l : List ValidatorRecord) (t s : Nat) :
    (mkValidatorsInfo l t s).Pairwise (fun a b => a.index < b.index) := by
  unfold mkValidatorsInfo
  rw [List.pairwise_map]
  have h := List.pairwise_lt_range l.length
  rw [← List.enum_map_fst l] at h
  exact List.pairwise_map.mp h

/-- C1: in the surplus path the allocator emits deposits in descending score
order, stably (equal scores keep the original validator-list order); only
validators needing at least `min_stake` receive one; each deposit's amount
is `min(need, delta)` for the delta recomputed from the fresh snapshot at
that emission's own step, that recomputed delta is actionable
(`0 < delta` and `min_stake ≤ delta`), and the recomputation steps are
exactly `0, 1, …` — one fresh snapshot immediately before each emission and
no emission at or after a non-actionable recomputation. -/
theorem stakeDelta_surplus_spec (p : SDParams) (env : Nat → IterView)
    (flag : Bool) (st : SurplusSt)
    (h : stakeDeltaProcess p env = some (flag, SDOutcome.staked st)) :
    (st.ops.map (fun o => o.vi)).Pairwise (fun a b =>
      b.record.score ≤ a.record.score ∧
      (a.record.score ≤ b.record.score → a.index < b.index)) ∧
    st.ops.map (fun o => o.step) = List.range st.ops.length ∧
    (∀ o ∈ st.ops,
      (p.min_stake : Int) ≤ o.vi.stake_delta ∧
      0 < stake_delta (env o.step).delta_inputs ∧
      (p.min_stake : Int) ≤ stake_delta (env o.step).delta_inputs ∧
      o.amount =
        (min o.vi.stake_delta (stake_delta (env o.step).delta_inputs)).toNat) := by
  simp only [stakeDeltaProcess] at h
  by_cases hA : stake_delta p.initial = 0 ∨
      (0 ≤ stake_delta p.initial ∧ stake_delta p.initial < (p.min_stake : Int))
  · rw [if_pos hA] at h
    exact absurd h (by simp)
  · rw [if_neg hA] at h
    by_cases hB : ((p.total_active_balance : Int) + stake_delta p.initial) < 0 ∨
        (u64MAX : Int) < ((p.total_active_balance : Int) + stake_delta p.initial)
    · rw [if_pos hB] at h
      exact absurd h (by simp)
    · rw [if_neg hB] at h
      by_cases hC : 0 < stake_delta p.initial
      · rw [if_pos hC] at h
        have hpair := Option.some.inj h
        have hst := SDOutcome.staked.inj (congrArg Prod.snd hpair)
        obtain ⟨new, heq, hsub, hsteps, hmem⟩ :=
          surplusLoop_spec p.min_stake p.epoch p.limit env
            (sortBy (fun a b => decide (b.record.score ≤ a.record.score))
              (mkValidatorsInfo p.validator_list
                (((p.total_active_balance : Int) + stake_delta p.initial)).toNat
                p.total_score))
            0 ⟨[], 0, 0, 0⟩
        rw [heq] at hst
        have hops : st.ops = new := by
          rw [← hst]
          simp
        have htrans : ∀ a b c : ValidatorInfo,
            decide (b.record.score ≤ a.record.score) = true →
            decide (c.record.score ≤ b.record.score) = true →
            decide (c.record.score ≤ a.record.score) = true := by
          intro a b c hab hbc
          simp only [decide_eq_true_eq] at hab hbc ⊢
          omega
        have htotal : ∀ a b : ValidatorInfo,
            (decide (b.record.score ≤ a.record.score) ||
              decide (a.record.score ≤ b.record.score)) = true := by
          intro a b
          simp only [Bool.or_eq_true, decide_eq_true_eq]
          omega
        have hsorted := pairwise_sortBy
          (fun a b : ValidatorInfo => decide (b.record.score ≤ a.record.score))
          htrans htotal
          (mkValidatorsInfo p.validator_list
            (((p.total_active_balance : Int) + stake_delta p.initial)).toNat
            p.total_score)
        have hstable := stable_sortBy
          (fun a b : ValidatorInfo => decide (b.record.score ≤ a.record.score))
          (fun v => v.index)
          (mkValidatorsInfo p.validator_list
            (((p.total_active_balance : Int) + stake_delta p.initial)).toNat
            p.total_score)
          (mkValidatorsInfo_index_pairwise _ _ _)
        have hcomb := hsorted.and hstable
        refine ⟨?_, ?_, ?_⟩
        · rw [hops]
          refine (List.Pairwise.sublist hsub hcomb).imp ?_
          intro a b hx
          exact ⟨of_decide_eq_true hx.1, fun hz => hx.2 (decide_eq_true hz)⟩
        · rw [hops, hsteps, List.range_eq_range']
        · intro o ho
          rw [hops] at ho
          obtain ⟨m1, _, m3, m4, m5⟩ := hmem o ho
          exact ⟨m1, m3, m4, m5⟩
      · rw [if_neg hC] at h
        exact absurd h (by simp)

/-- Witness for C1: the spec's §8 concrete scenario — total active 900,
delta +100, scores A:300 (balance 700), B:100 (balance 200), min_stake 10:
targets 750/250, needs 50/50; the pass deposits 50 to A then 50 to B, at
recomputation steps 0 and 1. -/
theorem stakeDelta_surplus_spec_witness :
    stakeDeltaProcess
      ⟨⟨100, 0, 0, 0⟩, 10, 5, 0, 900, 400, [⟨1, 700, 300, 0⟩, ⟨2, 200, 100, 0⟩], []⟩
      (fun _ => ⟨⟨100, 0, 0, 0⟩, 0, true, false⟩) =
      some (true, SDOutcome.staked
        ⟨[⟨⟨0, ⟨1, 700, 300, 0⟩, 50⟩, 50, 0⟩, ⟨⟨1, ⟨2, 200, 100, 0⟩, 50⟩, 50, 1⟩],
          2, 0, 2⟩) ∧
    ((⟨[⟨⟨0, ⟨1, 700, 300, 0⟩, 50⟩, 50, 0⟩, ⟨⟨1, ⟨2, 200, 100, 0⟩, 50⟩, 50, 1⟩],
        2, 0, 2⟩ : SurplusSt).ops.map (fun o => o.vi)).Pairwise (fun a b =>
      b.record.score ≤ a.record.score ∧
      (a.record.score ≤ b.record.score → a.index < b.index)) ∧
    (∀ o ∈ (⟨[⟨⟨0, ⟨1, 700, 300, 0⟩, 50⟩, 50, 0⟩, ⟨⟨1, ⟨2, 200, 100, 0⟩, 50⟩, 50, 1⟩],
        2, 0, 2⟩ : SurplusSt).ops,
      ((10 : Nat) : Int) ≤ o.vi.stake_delta) := by
  have hrun : stakeDeltaProcess
      ⟨⟨100, 0, 0, 0⟩, 10, 5, 0, 900, 400, [⟨1, 700, 300, 0⟩, ⟨2, 200, 100, 0⟩], []⟩
      (fun _ => ⟨⟨100, 0, 0, 0⟩, 0, true, false⟩) =
      some (true, SDOutcome.staked
        ⟨[⟨⟨0, ⟨1, 700, 300, 0⟩, 50⟩, 50, 0⟩, ⟨⟨1, ⟨2, 200, 100, 0⟩, 50⟩, 50, 1⟩],
          2, 0, 2⟩) := by
    decide
  have hmain := stakeDelta_surplus_spec
    ⟨⟨100, 0, 0, 0⟩, 10, 5, 0, 900, 400, [⟨1, 700, 300, 0⟩, ⟨2, 200, 100, 0⟩], []⟩
    (fun _ => ⟨⟨100, 0, 0, 0⟩, 0, true, false⟩) true
    ⟨[⟨⟨0, ⟨1, 700, 300, 0⟩, 50⟩, 50, 0⟩, ⟨⟨1, ⟨2, 200, 100, 0⟩, 50⟩, 50, 1⟩],
      2, 0, 2⟩ hrun
  exact ⟨hrun, hmain.1, fun o ho => (hmain.2.2 o ho).1⟩

/-- Unrolling of the shortfall inner (per-validator) loop: it only appends
operations; the emitted positions form a subsequence of the (size-sorted)
position list handed to it; every emitted operation belongs to the fixed
validator; the counters advance by the number of successful / failed
submissions. -/
theorem shortfallInner_spec (limit : Nat) (env : Nat → IterView)
    (vi : ValidatorInfo) (tufv : Nat) :
    ∀ (stakes : List StakeInfo) (step sum left : Nat) (st : ShortSt), ∃ new,
      (shortfallInner limit env vi tufv stakes step sum left st).1 =
        ⟨st.ops ++ new,
         st.count_tx_ok + (new.filter (fun o => (env o.step).txOk)).length,
         st.count_tx_err + (new.filter (fun o => !(env o.step).txOk)).length,
         st.count_processed + new.length⟩ ∧
      (new.map (fun o => o.sInfo)).Sublist stakes ∧
      ∀ o ∈ new, o.vi = vi := by
  intro stakes
  induction stakes with
  | nil =>
    intro step sum left st
    exact ⟨[], by simp [shortfallInner], List.nil_sublist _, by simp⟩
  | cons s rest ih =>
    intro step sum left st
    by_cases h1 : tufv ≤ sum
    · refine ⟨[], ?_, List.nil_sublist _, by simp⟩
      simp [shortfallInner, h1]
    · set o : DeactivateOp := ⟨vi, s, step⟩ with ho
      set estimated := if s.record.last_update_delegated_lamports < left then
        s.record.last_update_delegated_lamports else left with hest
      set st' : ShortSt := ⟨st.ops ++ [o],
        st.count_tx_ok + (if (env step).txOk then 1 else 0),
        st.count_tx_err + (if (env step).txOk then 0 else 1),
        st.count_processed + 1⟩ with hst'
      by_cases h2 : 0 < limit ∧ limit ≤ st'.count_processed
      · refine ⟨[o], ?_, ?_, ?_⟩
        · have hres : (shortfallInner limit env vi tufv (s :: rest) step sum left st).1
              = st' := by
            simp [shortfallInner, h1, hst', hest, h2]
          rw [hres, hst']
          by_cases htx : (env step).txOk <;> simp [ho, htx]
        · simpa [ho] using List.Sublist.cons₂ s (List.nil_sublist rest)
        · intro o' ho'
          rcases List.mem_singleton.mp ho' with rfl
          rw [ho]
      · obtain ⟨new, heq, hsub, hmem⟩ := ih (step + 1)
          (if (env step).txOk then sum + estimated else sum)
          (if (env step).txOk then left - estimated else left) st'
        refine ⟨o :: new, ?_, ?_, ?_⟩
        · have hres : (shortfallInner limit env vi tufv (s :: rest) step sum left st).1
              = (shortfallInner limit env vi tufv rest (step + 1)
                  (if (env step).txOk then sum + estimated else sum)
                  (if (env step).txOk then left - estimated else left) st').1 := by
            simp [shortfallInner, h1, hst', hest, h2]
          rw [hres, heq, hst']
          by_cases htx : (env step).txOk <;>
            simp [ho, htx, Nat.add_assoc, Nat.add_comm 1]
        · exact hsub.cons₂ s
        · intro o' ho'
          rcases List.mem_cons.mp ho' with rfl | hmem'
          · rw [ho]
          · exact hmem o' hmem'

/-- Unrolling of the shortfall outer loop, for a validator list sorted
ascending by need with pairwise-distinct indices: it only appends
operations; emissions are grouped per validator in ascending-need order and,
within one validator, in ascending delegated-size order; every emission is
for a validator that needs unstaking and did not run this epoch, over a
position that passed the delegated/non-deactivating filter; counters advance
by the number of successful / failed submissions. -/
theorem shortfallOuter_spec (epoch limit ttu0 : Nat) (stakes_rev : List StakeInfo)
    (env : Nat → IterView) :
    ∀ (vis : List ValidatorInfo),
      vis.Pairwise (fun a b => a.stake_delta ≤ b.stake_delta ∧ a.index ≠ b.index) →
      ∀ (step sum_total : Nat) (st : ShortSt), ∃ new,
        shortfallOuter epoch limit ttu0 stakes_rev env vis step sum_total st =
          ⟨st.ops ++ new,
           st.count_tx_ok + (new.filter (fun o => (env o.step).txOk)).length,
           st.count_tx_err + (new.filter (fun o => !(env o.step).txOk)).length,
           st.count_processed + new.length⟩ ∧
        new.Pairwise (fun a b => a.vi.stake_delta ≤ b.vi.stake_delta ∧
          (a.vi.index = b.vi.index → delegatedOf a.sInfo ≤ delegatedOf b.sInfo)) ∧
        ∀ o ∈ new, o.vi ∈ vis ∧ o.vi.stake_delta < 0 ∧
          o.vi.record.last_stake_delta_epoch ≠ epoch ∧
          unstakeFilter o.vi o.sInfo = true := by
  intro vis
  induction vis with
  | nil =>
    intro _ step sum_total st
    exact ⟨[], by simp [shortfallOuter], by simp, by simp⟩
  | cons vi rest ih =>
    intro hp step sum_total st
    obtain ⟨hhead, htail⟩ := List.pairwise_cons.mp hp
    by_cases h1 : ttu0 ≤ sum_total
    · exact ⟨[], by simp [shortfallOuter, h1], by simp, by simp⟩
    · by_cases h2 : (0 : Int) ≤ vi.stake_delta
      · exact ⟨[], by simp [shortfallOuter, h1, h2], by simp, by simp⟩
      · by_cases h3 : (0 : Int) ≤ stake_delta (env step).delta_inputs
        · exact ⟨[], by simp [shortfallOuter, h1, h2, h3], by simp, by simp⟩
        · by_cases h4 : vi.record.last_stake_delta_epoch = epoch
          · obtain ⟨new, heq, hpair, hmem⟩ := ih htail (step + 1) sum_total st
            refine ⟨new, ?_, hpair, ?_⟩
            · rw [← heq]
              simp [shortfallOuter, h1, h2, h3, h4]
            · intro o ho
              obtain ⟨hm, hrest⟩ := hmem o ho
              exact ⟨List.mem_cons_of_mem vi hm, hrest⟩
          · -- this validator is processed through the inner loop
            set tufv := min (-vi.stake_delta).toNat
              (-(stake_delta (env step).delta_inputs)).toNat with htufv
            set vstakes := sortBy (fun a b => decide (delegatedOf a ≤ delegatedOf b))
              (stakes_rev.filter (unstakeFilter vi)) with hvstakes
            obtain ⟨g, hg, hgsub, hgvi⟩ :=
              shortfallInner_spec limit env vi tufv vstakes (step + 1) 0 tufv st
            have hvst : vstakes.Pairwise
                (fun x y => delegatedOf x ≤ delegatedOf y) := by
              rw [hvstakes]
              refine (pairwise_sortBy _ ?_ ?_ _).imp (fun hx => of_decide_eq_true hx)
              · intro a b c hab hbc
                simp only [decide_eq_true_eq] at hab hbc ⊢
                omega
              · intro a b
                simp only [Bool.or_eq_true, decide_eq_true_eq]
                omega
            have hgP : g.Pairwise (fun a b => a.vi.stake_delta ≤ b.vi.stake_delta ∧
                (a.vi.index = b.vi.index →
                  delegatedOf a.sInfo ≤ delegatedOf b.sInfo)) := by
              have hgm : (g.map (fun o => o.sInfo)).Pairwise
                  (fun x y => delegatedOf x ≤ delegatedOf y) :=
                List.Pairwise.sublist hgsub hvst
              have hgdel : g.Pairwise (fun a b =>
                  delegatedOf a.sInfo ≤ delegatedOf b.sInfo) :=
                (@List.pairwise_map DeactivateOp StakeInfo (fun o => o.sInfo)
                  (fun x y => delegatedOf x ≤ delegatedOf y) g).mp hgm
              refine hgdel.imp_of_mem ?_
              intro a b ha hb hd
              rw [hgvi a ha, hgvi b hb]
              exact ⟨le_refl _, fun _ => hd⟩
            have hgprops : ∀ o ∈ g, o.vi ∈ vi :: rest ∧ o.vi.stake_delta < 0 ∧
                o.vi.record.last_stake_delta_epoch ≠ epoch ∧
                unstakeFilter o.vi o.sInfo = true := by
              intro o ho
              have hovi := hgvi o ho
              have hsf : o.sInfo ∈ vstakes :=
                hgsub.mem (List.mem_map_of_mem _ ho)
              have hsf' : o.sInfo ∈ stakes_rev.filter (unstakeFilter vi) := by
                rw [hvstakes] at hsf
                exact (sortBy_perm _ _).mem_iff.mp hsf
              refine ⟨by rw [hovi]; exact List.mem_cons_self vi rest,
                by rw [hovi]; omega, by rw [hovi]; exact h4, ?_⟩
              rw [hovi]
              exact (List.mem_filter.mp hsf').2
            by_cases h5 : 0 < limit ∧ limit ≤
                (shortfallInner limit env vi tufv vstakes (step + 1) 0 tufv st).1.count_processed
            · refine ⟨g, ?_, hgP, hgprops⟩
              rw [← hg]
              simp only [shortfallOuter]
              rw [if_neg h1, if_neg h2, if_neg h3, if_neg h4]
              simp only [← htufv, ← hvstakes]
              rw [if_pos h5]
            · by_cases h6 : (env (shortfallInner limit env vi tufv vstakes
                  (step + 1) 0 tufv st).2.1).elapsed_exceeds
              · refine ⟨g, ?_, hgP, hgprops⟩
                rw [← hg]
                simp only [shortfallOuter]
                rw [if_neg h1, if_neg h2, if_neg h3, if_neg h4]
                simp only [← htufv, ← hvstakes]
                rw [if_neg h5, if_pos h6]
              · obtain ⟨new, heq, hpair, hmem⟩ := ih htail
                  ((shortfallInner limit env vi tufv vstakes (step + 1) 0 tufv st).2.1)
                  (sum_total +
                    (shortfallInner limit env vi tufv vstakes (step + 1) 0 tufv st).2.2)
                  ((shortfallInner limit env vi tufv vstakes (step + 1) 0 tufv st).1)
                refine ⟨g ++ new, ?_, ?_, ?_⟩
                · have hres : shortfallOuter epoch limit ttu0 stakes_rev env
                      (vi :: rest) step sum_total st =
                      shortfallOuter epoch limit ttu0 stakes_rev env rest
                        ((shortfallInner limit env vi tufv vstakes (step + 1) 0 tufv st).2.1)
                        (sum_total +
                          (shortfallInner limit env vi tufv vstakes (step + 1) 0 tufv st).2.2)
                        ((shortfallInner limit env vi tufv vstakes (step + 1) 0 tufv st).1) := by
                    simp only [shortfallOuter]
                    rw [if_neg h1, if_neg h2, if_neg h3, if_neg h4]
                    simp only [← htufv, ← hvstakes]
                    rw [if_neg h5, if_neg (by simpa using h6)]
                  rw [hres, heq, hg]
                  simp [List.filter_append, Nat.add_assoc]
                · rw [List.pairwise_append]
                  refine ⟨hgP, hpair, ?_⟩
                  intro a ha b hb
                  have hav := hgvi a ha
                  have hbv := (hmem b hb).1
                  obtain ⟨hle, hne⟩ := hhead b.vi hbv
                  rw [hav]
                  exact ⟨hle, fun hidx => absurd hidx hne⟩
                · intro o ho
                  rcases List.mem_append.mp ho with ho' | ho'
                  · exact hgprops o ho'
                  · obtain ⟨hm, hrest⟩ := hmem o ho'
                    exact ⟨List.mem_cons_of_mem vi hm, hrest⟩

/-- The shortfall-path sorted validator list is ascending by need and keeps
the enumerated indices pairwise distinct. -/
theorem sortedShortfallVis_pairwise (l : List ValidatorRecord) (t s : Nat) :
    (sortBy (fun a b => decide (a.stake_delta ≤ b.stake_delta))
      (mkValidatorsInfo l t s)).Pairwise
      (fun a b => a.stake_delta ≤ b.stake_delta ∧ a.index ≠ b.index) := by
  have hsd : (sortBy (fun a b => decide (a.stake_delta ≤ b.stake_delta))
      (mkValidatorsInfo l t s)).Pairwise
      (fun a b => a.stake_delta ≤ b.stake_delta) := by
    refine (pairwise_sortBy _ ?_ ?_ _).imp (fun hx => of_decide_eq_true hx)
    · intro a b c hab hbc
      simp only [decide_eq_true_eq] at hab hbc ⊢
      omega
    · intro a b
      simp only [Bool.or_eq_true, decide_eq_true_eq]
      omega
  have hidx0 : (mkValidatorsInfo l t s).Pairwise (fun a b => a.index ≠ b.index) :=
    (mkValidatorsInfo_index_pairwise l t s).imp (fun h => Nat.ne_of_lt h)
  have hnd0 : ((mkValidatorsInfo l t s).map (fun v => v.index)).Pairwise (· ≠ ·) :=
    (@List.pairwise_map ValidatorInfo Nat (fun v => v.index) (· ≠ ·) _).mpr hidx0
  have hperm : ((sortBy (fun a b => decide (a.stake_delta ≤ b.stake_delta))
      (mkValidatorsInfo l t s)).map (fun v => v.index)).Perm
      ((mkValidatorsInfo l t s).map (fun v => v.index)) :=
    (sortBy_perm _ _).map _
  have hnds : ((sortBy (fun a b => decide (a.stake_delta ≤ b.stake_delta))
      (mkValidatorsInfo l t s)).map (fun v => v.index)).Pairwise (· ≠ ·) :=
    (List.Perm.nodup_iff hperm).mpr hnd0
  have hidx : (sortBy (fun a b => decide (a.stake_delta ≤ b.stake_delta))
      (mkValidatorsInfo l t s)).Pairwise (fun a b => a.index ≠ b.index) :=
    (@List.pairwise_map ValidatorInfo Nat (fun v => v.index) (· ≠ ·) _).mp hnds
  exact hsd.and hidx

/-- Inversion of a shortfall run: the facts `shortfallOuter_spec` gives
about the emitted operations, at the top level. -/
theorem shortfall_ops_facts (p : SDParams) (env : Nat → IterView)
    (flag : Bool) (st : ShortSt)
    (h : stakeDeltaProcess p env = some (flag, SDOutcome.unstaked st)) :
    st.ops.Pairwise (fun a b => a.vi.stake_delta ≤ b.vi.stake_delta ∧
      (a.vi.index = b.vi.index → delegatedOf a.sInfo ≤ delegatedOf b.sInfo)) ∧
    ∀ o ∈ st.ops, o.vi.stake_delta < 0 ∧
      o.vi.record.last_stake_delta_epoch ≠ p.epoch ∧
      unstakeFilter o.vi o.sInfo = true := by
  simp only [stakeDeltaProcess] at h
  by_cases hA : stake_delta p.initial = 0 ∨
      (0 ≤ stake_delta p.initial ∧ stake_delta p.initial < (p.min_stake : Int))
  · rw [if_pos hA] at h
    exact absurd h (by simp)
  · rw [if_neg hA] at h
    by_cases hB : ((p.total_active_balance : Int) + stake_delta p.initial) < 0 ∨
        (u64MAX : Int) < ((p.total_active_balance : Int) + stake_delta p.initial)
    · rw [if_pos hB] at h
      exact absurd h (by simp)
    · rw [if_neg hB] at h
      by_cases hC : 0 < stake_delta p.initial
      · rw [if_pos hC] at h
        exact absurd h (by simp)
      · rw [if_neg hC] at h
        have hpair := Option.some.inj h
        have hst := SDOutcome.unstaked.inj (congrArg Prod.snd hpair)
        obtain ⟨new, heq, hpairs, hmem⟩ :=
          shortfallOuter_spec p.epoch p.limit (-(stake_delta p.initial)).toNat
            p.stakes_reversed env
            (sortBy (fun a b => decide (a.stake_delta ≤ b.stake_delta))
              (mkValidatorsInfo p.validator_list
                (((p.total_active_balance : Int) + stake_delta p.initial)).toNat
                p.total_score))
            (sortedShortfallVis_pairwise _ _ _) 0 0 ⟨[], 0, 0, 0⟩
        rw [heq] at hst
        have hops : st.ops = new := by
          rw [← hst]
          simp
        rw [hops]
        exact ⟨hpairs, fun o ho => ⟨(hmem o ho).2.1, (hmem o ho).2.2.1,
          (hmem o ho).2.2.2⟩⟩

/-- C2: in the shortfall path, emissions are ordered by validators ascending
in need (most negative first) and, within one validator, over that
validator's delegated non-deactivating positions in ascending delegated
size, so a smaller position is fully retired before a larger one is split;
every emission targets a validator needing unstake that has not run this
epoch, over a position passing the Active/non-deactivating filter. -/
theorem stakeDelta_shortfall_spec (p : SDParams) (env : Nat → IterView)
    (flag : Bool) (st : ShortSt)
    (h : stakeDeltaProcess p env = some (flag, SDOutcome.unstaked st)) :
    st.ops.Pairwise (fun a b => a.vi.stake_delta ≤ b.vi.stake_delta ∧
      (a.vi.index = b.vi.index → delegatedOf a.sInfo ≤ delegatedOf b.sInfo)) ∧
    ∀ o ∈ st.ops, o.vi.stake_delta < 0 ∧
      o.vi.record.last_stake_delta_epoch ≠ p.epoch ∧
      unstakeFilter o.vi o.sInfo = true :=
  shortfall_ops_facts p env flag st h

/-- Witness for C2: the spec's §8 shortfall scenario — `delta = −30`, one
validator with Active positions of 40 and 15: the 15 position is retired
(emission 1, before the 40 position is touched at emission 2); emitted
delegated sizes are `[15, 40]`. -/
theorem stakeDelta_shortfall_spec_witness :
    stakeDeltaProcess
      ⟨⟨0, 0, 0, 30⟩, 10, 5, 0, 100, 100, [⟨1, 100, 100, 0⟩],
        [⟨1, ⟨11, 15, 0⟩, some ⟨⟨1, 15, u64MAX⟩, 0⟩, 0, 15, 0, 0⟩,
         ⟨0, ⟨10, 40, 0⟩, some ⟨⟨1, 40, u64MAX⟩, 0⟩, 0, 40, 0, 0⟩]⟩
      (fun _ => ⟨⟨0, 0, 0, 30⟩, 0, true, false⟩) =
      some (true, SDOutcome.unstaked
        ⟨[⟨⟨0, ⟨1, 100, 100, 0⟩, -30⟩, ⟨1, ⟨11, 15, 0⟩, some ⟨⟨1, 15, u64MAX⟩, 0⟩, 0, 15, 0, 0⟩, 1⟩,
          ⟨⟨0, ⟨1, 100, 100, 0⟩, -30⟩, ⟨0, ⟨10, 40, 0⟩, some ⟨⟨1, 40, u64MAX⟩, 0⟩, 0, 40, 0, 0⟩, 2⟩],
          2, 0, 2⟩) ∧
    ((⟨[⟨⟨0, ⟨1, 100, 100, 0⟩, -30⟩, ⟨1, ⟨11, 15, 0⟩, some ⟨⟨1, 15, u64MAX⟩, 0⟩, 0, 15, 0, 0⟩, 1⟩,
        ⟨⟨0, ⟨1, 100, 100, 0⟩, -30⟩, ⟨0, ⟨10, 40, 0⟩, some ⟨⟨1, 40, u64MAX⟩, 0⟩, 0, 40, 0, 0⟩, 2⟩],
        2, 0, 2⟩ : ShortSt).ops.map (fun o => delegatedOf o.sInfo)) = [15, 40] ∧
    (⟨[⟨⟨0, ⟨1, 100, 100, 0⟩, -30⟩, ⟨1, ⟨11, 15, 0⟩, some ⟨⟨1, 15, u64MAX⟩, 0⟩, 0, 15, 0, 0⟩, 1⟩,
       ⟨⟨0, ⟨1, 100, 100, 0⟩, -30⟩, ⟨0, ⟨10, 40, 0⟩, some ⟨⟨1, 40, u64MAX⟩, 0⟩, 0, 40, 0, 0⟩, 2⟩],
       2, 0, 2⟩ : ShortSt).ops.Pairwise (fun a b =>
      a.vi.stake_delta ≤ b.vi.stake_delta ∧
      (a.vi.index = b.vi.index → delegatedOf a.sInfo ≤ delegatedOf b.sInfo)) := by
  have hrun : stakeDeltaProcess
      ⟨⟨0, 0, 0, 30⟩, 10, 5, 0, 100, 100, [⟨1, 100, 100, 0⟩],
        [⟨1, ⟨11, 15, 0⟩, some ⟨⟨1, 15, u64MAX⟩, 0⟩, 0, 15, 0, 0⟩,
         ⟨0, ⟨10, 40, 0⟩, some ⟨⟨1, 40, u64MAX⟩, 0⟩, 0, 40, 0, 0⟩]⟩
      (fun _ => ⟨⟨0, 0, 0, 30⟩, 0, true, false⟩) =
      some (true, SDOutcome.unstaked
        ⟨[⟨⟨0, ⟨1, 100, 100, 0⟩, -30⟩, ⟨1, ⟨11, 15, 0⟩, some ⟨⟨1, 15, u64MAX⟩, 0⟩, 0, 15, 0, 0⟩, 1⟩,
          ⟨⟨0, ⟨1, 100, 100, 0⟩, -30⟩, ⟨0, ⟨10, 40, 0⟩, some ⟨⟨1, 40, u64MAX⟩, 0⟩, 0, 40, 0, 0⟩, 2⟩],
          2, 0, 2⟩) := by
    decide
  refine ⟨hrun, by decide, ?_⟩
  exact (stakeDelta_shortfall_spec _ _ _ _ hrun).1

/-- C8 counterexample.  Shortfall of 30 on one validator whose
`last_stake_delta_epoch` equals the current epoch (5) while the live
extra-run allowance is 3 (nonzero) and an eligible Active position exists:
the claim mandates the validator still be processed for unstaking, but the
run emits no operation at all — the shortfall skip ignores the allowance. -/
theorem shortfall_skip_counterexample :
    stakeDeltaProcess
      ⟨⟨0, 0, 0, 30⟩, 10, 5, 0, 100, 100, [⟨1, 100, 100, 5⟩],
        [⟨1, ⟨11, 15, 0⟩, some ⟨⟨1, 15, u64MAX⟩, 0⟩, 0, 15, 0, 0⟩,
         ⟨0, ⟨10, 40, 0⟩, some ⟨⟨1, 40, u64MAX⟩, 0⟩, 0, 40, 0, 0⟩]⟩
      (fun _ => ⟨⟨0, 0, 0, 30⟩, 3, true, false⟩) =
      some (true, SDOutcome.unstaked ⟨[], 0, 0, 0⟩) ∧
    ((fun _ => (⟨⟨0, 0, 0, 30⟩, 3, true, false⟩ : IterView)) 0).extra_stake_delta_runs ≠ 0 ∧
    stake_delta ⟨0, 0, 0, 30⟩ < 0 ∧
    unstakeFilter ⟨0, ⟨1, 100, 100, 5⟩, -30⟩
      ⟨1, ⟨11, 15, 0⟩, some ⟨⟨1, 15, u64MAX⟩, 0⟩, 0, 15, 0, 0⟩ = true := by
  refine ⟨by decide, by decide, by decide, by decide⟩

/-- C8 (amended): the shortfall path's once-per-epoch rule is stricter than
the surplus path's: a validator whose `last_stake_delta_epoch` equals the
current epoch is always skipped in the shortfall path — no emission ever
targets such a validator, whatever the extra-run allowance — while in the
surplus path a nonzero extra-run allowance does let such a validator be
processed (concrete run: both validators ran this epoch, allowance 1, and
both deposits are still emitted). -/
theorem shortfall_skip_spec :
    (∀ (p : SDParams) (env : Nat → IterView) (flag : Bool) (st : ShortSt),
      stakeDeltaProcess p env = some (flag, SDOutcome.unstaked st) →
      ∀ o ∈ st.ops, o.vi.record.last_stake_delta_epoch ≠ p.epoch) ∧
    stakeDeltaProcess
      ⟨⟨100, 0, 0, 0⟩, 10, 5, 0, 900, 400, [⟨1, 700, 300, 5⟩, ⟨2, 200, 100, 5⟩], []⟩
      (fun _ => ⟨⟨100, 0, 0, 0⟩, 1, true, false⟩) =
      some (true, SDOutcome.staked
        ⟨[⟨⟨0, ⟨1, 700, 300, 5⟩, 50⟩, 50, 0⟩, ⟨⟨1, ⟨2, 200, 100, 5⟩, 50⟩, 50, 1⟩],
          2, 0, 2⟩) := by
  constructor
  · intro p env flag st h o ho
    exact ((shortfall_ops_facts p env flag st h).2 o ho).2.1
  · decide

/-- Witness for C8 (amended): the first part applied to the concrete
shortfall run of the counterexample scenario (whose emission list is empty,
so the per-operation guarantee holds trivially but is discharged through
the theorem). -/
theorem shortfall_skip_spec_witness :
    ∀ o ∈ (⟨[], 0, 0, 0⟩ : ShortSt).ops,
      o.vi.record.last_stake_delta_epoch ≠
        (⟨⟨0, 0, 0, 30⟩, 10, 5, 0, 100, 100, [⟨1, 100, 100, 5⟩],
          [⟨1, ⟨11, 15, 0⟩, some ⟨⟨1, 15, u64MAX⟩, 0⟩, 0, 15, 0, 0⟩,
           ⟨0, ⟨10, 40, 0⟩, some ⟨⟨1, 40, u64MAX⟩, 0⟩, 0, 40, 0, 0⟩]⟩ : SDParams).epoch :=
  shortfall_skip_spec.1
    ⟨⟨0, 0, 0, 30⟩, 10, 5, 0, 100, 100, [⟨1, 100, 100, 5⟩],
      [⟨1, ⟨11, 15, 0⟩, some ⟨⟨1, 15, u64MAX⟩, 0⟩, 0, 15, 0, 0⟩,
       ⟨0, ⟨10, 40, 0⟩, some ⟨⟨1, 40, u64MAX⟩, 0⟩, 0, 40, 0, 0⟩]⟩
    (fun _ => ⟨⟨0, 0, 0, 30⟩, 3, true, false⟩) true ⟨[], 0, 0, 0⟩ (by decide)

/-- C9: with `delta == 0`, or `delta` positive but below `min_stake`, the
Allocator emits zero operations and returns success; and when every
position's `last_update_epoch` equals the current epoch the Crank emits zero
operations and returns success. -/
theorem noop_idempotence_spec :
    (∀ (p : SDParams) (env : Nat → IterView),
      stake_delta p.initial = 0 ∨
        (0 < stake_delta p.initial ∧ stake_delta p.initial < (p.min_stake : Int)) →
      stakeDeltaProcess p env = some (true, SDOutcome.nothingToDo)) ∧
    (∀ (epoch : Nat) (validators : List ValidatorRecord) (txOk : Nat → Bool)
        (stakes : List StakeInfo),
      (∀ s ∈ stakes, s.record.last_update_epoch = epoch) →
      updatePriceProcess epoch validators txOk stakes =
        Except.ok (true, ⟨[], 0, 0, 0⟩)) := by
  constructor
  · intro p env h
    simp only [stakeDeltaProcess]
    rw [if_pos]
    rcases h with h | ⟨h1, h2⟩
    · exact Or.inl h
    · exact Or.inr ⟨le_of_lt h1, h2⟩
  · intro epoch validators txOk stakes h
    simp only [updatePriceProcess]
    rw [if_pos]
    rw [List.all_eq_true]
    intro s hs
    rw [decide_eq_true_eq]
    rw [h s hs]
    omega

/-- Witness for C9: a zero-delta run does nothing, and a snapshot whose only
position was observed this epoch cranks nothing. -/
theorem noop_idempotence_spec_witness :
    stakeDeltaProcess ⟨⟨5, 5, 3, 3⟩, 10, 5, 0, 100, 100, [⟨1, 100, 100, 0⟩], []⟩
      (fun _ => ⟨⟨5, 5, 3, 3⟩, 0, true, false⟩) =
      some (true, SDOutcome.nothingToDo) ∧
    updatePriceProcess 5 [⟨9, 0, 0, 0⟩] (fun _ => true)
      [⟨0, ⟨77, 50, 5⟩, some ⟨⟨9, 60, u64MAX⟩, 4⟩, 0, 60, 0, 0⟩] =
      Except.ok (true, ⟨[], 0, 0, 0⟩) := by
  constructor
  · exact noop_idempotence_spec.1
      ⟨⟨5, 5, 3, 3⟩, 10, 5, 0, 100, 100, [⟨1, 100, 100, 0⟩], []⟩
      (fun _ => ⟨⟨5, 5, 3, 3⟩, 0, true, false⟩) (by decide)
  · exact noop_idempotence_spec.2 5 [⟨9, 0, 0, 0⟩] (fun _ => true)
      [⟨0, ⟨77, 50, 5⟩, some ⟨⟨9, 60, u64MAX⟩, 4⟩, 0, 60, 0, 0⟩] (by decide)

/-- A list splits into its kept and dropped parts under any filter. -/
theorem length_filter_partition {α : Type} (p : α → Bool) :
    ∀ l : List α, (l.filter p).length + (l.filter (fun a => !p a)).length = l.length := by
  intro l
  induction l with
  | nil => simp
  | cons a t ih =>
    by_cases h : p a <;> simp [List.filter_cons, h, ← ih] <;> omega

/-- The surplus loop's emissions and processed count do not depend on the
submission outcomes: two oracles agreeing on everything but `txOk` drive the
loop through the same branches and the same operations. -/
theorem surplusLoop_outcome_indep (ms epoch limit : Nat)
    (env env' : Nat → IterView)
    (hag : ∀ k, (env k).delta_inputs = (env' k).delta_inputs ∧
      (env k).extra_stake_delta_runs = (env' k).extra_stake_delta_runs ∧
      (env k).elapsed_exceeds = (env' k).elapsed_exceeds) :
    ∀ (vis : List ValidatorInfo) (step : Nat) (st st' : SurplusSt),
      st.ops = st'.ops → st.count_processed = st'.count_processed →
      (surplusLoop ms epoch limit env vis step st).ops =
        (surplusLoop ms epoch limit env' vis step st').ops ∧
      (surplusLoop ms epoch limit env vis step st).count_processed =
        (surplusLoop ms epoch limit env' vis step st').count_processed := by
  intro vis
  induction vis with
  | nil =>
    intro step st st' hops hproc
    exact ⟨by simpa [surplusLoop] using hops, by simpa [surplusLoop] using hproc⟩
  | cons vi rest ih =>
    intro step st st' hops hproc
    obtain ⟨hd, he, hel⟩ := hag step
    by_cases h1 : vi.stake_delta < 0
    · have := ih step st st' hops hproc
      simpa [surplusLoop, h1] using this
    · by_cases h2 : vi.stake_delta < (ms : Int)
      · have := ih step st st' hops hproc
        simpa [surplusLoop, h1, h2] using this
      · by_cases h3 : vi.record.last_stake_delta_epoch = epoch ∧
            (env step).extra_stake_delta_runs = 0
        · have h3' : vi.record.last_stake_delta_epoch = epoch ∧
              (env' step).extra_stake_delta_runs = 0 := by
            rw [← he]
            exact h3
          have := ih step st st' hops hproc
          simpa [surplusLoop, h1, h2, h3, h3'] using this
        · have h3' : ¬(vi.record.last_stake_delta_epoch = epoch ∧
              (env' step).extra_stake_delta_runs = 0) := by
            rw [← he]
            exact h3
          by_cases h4 : stake_delta (env step).delta_inputs ≤ 0 ∨
              (0 < stake_delta (env step).delta_inputs ∧
                stake_delta (env step).delta_inputs < (ms : Int))
          · have h4' : stake_delta (env' step).delta_inputs ≤ 0 ∨
                (0 < stake_delta (env' step).delta_inputs ∧
                  stake_delta (env' step).delta_inputs < (ms : Int)) := by
              rw [← hd]
              exact h4
            refine ⟨?_, ?_⟩ <;> simp [surplusLoop, h1, h2, h3, h3', h4, h4', hops, hproc]
          · have h4' : ¬(stake_delta (env' step).delta_inputs ≤ 0 ∨
                (0 < stake_delta (env' step).delta_inputs ∧
                  stake_delta (env' step).delta_inputs < (ms : Int))) := by
              rw [← hd]
              exact h4
            set o : DepositOp := ⟨vi,
              (min vi.stake_delta (stake_delta (env step).delta_inputs)).toNat, step⟩
              with hoo
            have hoo' : (⟨vi,
                (min vi.stake_delta (stake_delta (env' step).delta_inputs)).toNat,
                step⟩ : DepositOp) = o := by
              rw [hoo, ← hd]
            set s1 : SurplusSt := ⟨st.ops ++ [o],
              st.count_tx_ok + (if (env step).txOk then 1 else 0),
              st.count_tx_err + (if (env step).txOk then 0 else 1),
              st.count_processed + 1⟩ with hs1
            set s1' : SurplusSt := ⟨st'.ops ++ [o],
              st'.count_tx_ok + (if (env' step).txOk then 1 else 0),
              st'.count_tx_err + (if (env' step).txOk then 0 else 1),
              st'.count_processed + 1⟩ with hs1'
            have hops1 : s1.ops = s1'.ops := by
              rw [hs1, hs1']
              simpa using hops
            have hproc1 : s1.count_processed = s1'.count_processed := by
              rw [hs1, hs1']
              simpa using hproc
            by_cases h5 : 0 < limit ∧ limit ≤ st.count_processed + 1
            · have h5' : 0 < limit ∧ limit ≤ st'.count_processed + 1 := by
                rw [← hproc]
                exact h5
              refine ⟨?_, ?_⟩ <;>
                simp [surplusLoop, h1, h2, h3, h3', h4, h4', ← hoo, hoo', h5, h5',
                  hops, hproc]
            · have h5' : ¬(0 < limit ∧ limit ≤ st'.count_processed + 1) := by
                rw [← hproc]
                exact h5
              by_cases h6 : (env step).elapsed_exceeds
              · have h6' : (env' step).elapsed_exceeds := by
                  rw [← hel]
                  exact h6
                refine ⟨?_, ?_⟩ <;>
                  simp [surplusLoop, h1, h2, h3, h3', h4, h4', ← hoo, hoo', h5, h5',
                    h6, h6', hops, hproc]
              · have h6' : ¬(env' step).elapsed_exceeds := by
                  rw [← hel]
                  exact h6
                have hrec := ih (step + 1) s1 s1' hops1 hproc1
                have hl : surplusLoop ms epoch limit env (vi :: rest) step st =
                    surplusLoop ms epoch limit env rest (step + 1) s1 := by
                  simp only [surplusLoop, hs1]
                  rw [if_neg h1, if_neg h2, if_neg h3, if_neg h4]
                  rw [if_neg (by simpa [hs1] using h5), if_neg (by simpa using h6)]
                have hl' : surplusLoop ms epoch limit env' (vi :: rest) step st' =
                    surplusLoop ms epoch limit env' rest (step + 1) s1' := by
                  simp only [surplusLoop, hs1', ← hd]
                  rw [if_neg h1, if_neg h2, if_neg h3', if_neg h4]
                  rw [if_neg (by simpa [hs1'] using h5'), if_neg (by simpa using h6')]
                rw [hl, hl']
                exact hrec

/-- The Consolidator's emissions do not depend on submission outcomes: the
scan's candidate selection never consults them (a submitted pair ends the
inner scan whether it succeeded or failed). -/
theorem mergeFold_ops_indep (ms : List MergeableStakeInfo)
    (txOk txOk' : Nat → Bool) :
    ∀ (srcs : List Nat) (st st' : MergeState), st.ops = st'.ops →
      (srcs.foldl (mergeSourceStep ms txOk) st).ops =
        (srcs.foldl (mergeSourceStep ms txOk') st').ops := by
  intro srcs
  induction srcs with
  | nil => intro st st' hops; simpa using hops
  | cons src rest ih =>
    intro st st' hops
    simp only [List.foldl_cons]
    cases hfind : findMergeDest ms src with
    | none =>
      refine ih _ _ ?_
      simp [mergeSourceStep, hfind, hops]
    | some d =>
      refine ih _ _ ?_
      simp [mergeSourceStep, hfind, hops]

/-- The Consolidator's counters are exactly the per-submission outcome
tallies: after the scan, `count_processed` equals the number of emitted
operations and ok/err split it by the outcome of each submission in order. -/
theorem mergeFold_counts (ms : List MergeableStakeInfo) (txOk : Nat → Bool) :
    ∀ (srcs : List Nat) (st : MergeState),
      st.count_processed = st.ops.length →
      st.count_tx_ok =
        ((List.range st.ops.length).filter (fun i => txOk i)).length →
      st.count_tx_err =
        ((List.range st.ops.length).filter (fun i => !txOk i)).length →
      (srcs.foldl (mergeSourceStep ms txOk) st).count_processed =
        (srcs.foldl (mergeSourceStep ms txOk) st).ops.length ∧
      (srcs.foldl (mergeSourceStep ms txOk) st).count_tx_ok =
        ((List.range (srcs.foldl (mergeSourceStep ms txOk) st).ops.length).filter
          (fun i => txOk i)).length ∧
      (srcs.foldl (mergeSourceStep ms txOk) st).count_tx_err =
        ((List.range (srcs.foldl (mergeSourceStep ms txOk) st).ops.length).filter
          (fun i => !txOk i)).length := by
  intro srcs
  induction srcs with
  | nil => intro st h1 h2 h3; exact ⟨h1, h2, h3⟩
  | cons src rest ih =>
    intro st h1 h2 h3
    simp only [List.foldl_cons]
    cases hfind : findMergeDest ms src with
    | none =>
      refine ih _ ?_ ?_ ?_ <;> simp [mergeSourceStep, hfind, h1, h2, h3]
    | some d =>
      refine ih _ ?_ ?_ ?_ <;>
        simp [mergeSourceStep, hfind, h1, h2, h3, List.range_succ,
          List.filter_append] <;>
        by_cases htx : txOk st.ops.length <;> simp [htx]

/-- One submission keeps the tally invariant: counters split the submission
prefix by outcome. -/
theorem crankSubmit_inv (txOk : Nat → Bool) (st : CrankState) (op : CrankOp)
    (h1 : st.count_tx_ok + st.count_tx_err = st.ops.length)
    (h2 : st.count_tx_ok =
      ((List.range st.ops.length).filter (fun i => txOk i)).length)
    (h3 : st.count_tx_err =
      ((List.range st.ops.length).filter (fun i => !txOk i)).length) :
    (crankSubmit txOk st op).count_tx_ok + (crankSubmit txOk st op).count_tx_err =
      (crankSubmit txOk st op).ops.length ∧
    (crankSubmit txOk st op).count_tx_ok =
      ((List.range (crankSubmit txOk st op).ops.length).filter
        (fun i => txOk i)).length ∧
    (crankSubmit txOk st op).count_tx_err =
      ((List.range (crankSubmit txOk st op).ops.length).filter
        (fun i => !txOk i)).length := by
  have hlen : (crankSubmit txOk st op).ops.length = st.ops.length + 1 := by
    simp [crankSubmit]
  refine ⟨?_, ?_, ?_⟩
  · simp only [crankSubmit, hlen]
    by_cases htx : txOk (st.count_tx_ok + st.count_tx_err) <;> simp [htx] <;> omega
  · rw [hlen, List.range_succ, List.filter_append]
    simp only [crankSubmit, List.length_append, List.filter_cons]
    rw [h1]
    by_cases htx : txOk st.ops.length <;> simp [htx] <;> omega
  · rw [hlen, List.range_succ, List.filter_append]
    simp only [crankSubmit, List.length_append, List.filter_cons]
    rw [h1]
    by_cases htx : txOk st.ops.length <;> simp [htx] <;> omega

/-- The crank's counters are the per-submission outcome tallies. -/
theorem crankLoop_counts (epoch : Nat) (validators : List ValidatorRecord)
    (txOk : Nat → Bool) :
    ∀ (stakes : List StakeInfo) (st st' : CrankState),
      st.count_tx_ok + st.count_tx_err = st.ops.length →
      st.count_tx_ok =
        ((List.range st.ops.length).filter (fun i => txOk i)).length →
      st.count_tx_err =
        ((List.range st.ops.length).filter (fun i => !txOk i)).length →
      crankLoop epoch validators txOk stakes st = Except.ok st' →
      st'.count_tx_ok + st'.count_tx_err = st'.ops.length ∧
      st'.count_tx_ok =
        ((List.range st'.ops.length).filter (fun i => txOk i)).length ∧
      st'.count_tx_err =
        ((List.range st'.ops.length).filter (fun i => !txOk i)).length := by
  intro stakes
  induction stakes with
  | nil =>
    intro st st' h1 h2 h3 hl
    simp only [crankLoop] at hl
    cases hl
    exact ⟨h1, h2, h3⟩
  | cons s rest ih =>
    intro st st' h1 h2 h3 hl
    rw [crankLoop] at hl
    cases hdec : crankDecide epoch validators s with
    | skip =>
      rw [hdec] at hl
      dsimp only at hl
      exact ih st st' h1 h2 h3 hl
    | unsupported =>
      rw [hdec] at hl
      dsimp only at hl
      exact ih { st with count_processed := st.count_processed + 1 } st' h1 h2 h3 hl
    | emit op =>
      rw [hdec] at hl
      dsimp only at hl
      obtain ⟨k1, k2, k3⟩ := crankSubmit_inv txOk st op h1 h2 h3
      exact ih (crankSubmit txOk st op) st' k1 k2 k3 hl
    | panic msg =>
      rw [hdec] at hl
      dsimp only at hl
      exact absurd hl (by simp)

/-- The crank's emissions do not depend on submission outcomes. -/
theorem crankLoop_ops_indep (epoch : Nat) (validators : List ValidatorRecord)
    (txOk txOk' : Nat → Bool) (stakes : List StakeInfo) (st st' : CrankState)
    (h : crankLoop epoch validators txOk stakes ⟨[], 0, 0, 0⟩ = Except.ok st)
    (h' : crankLoop epoch validators txOk' stakes ⟨[], 0, 0, 0⟩ = Except.ok st') :
    st.ops = st'.ops := by
  cases hm : stakes.mapM (crankOpFor epoch validators) with
  | ok plans =>
    obtain ⟨s1, hl1, ho1⟩ :=
      (crankLoop_mapM epoch validators txOk stakes ⟨[], 0, 0, 0⟩).1 plans hm
    obtain ⟨s2, hl2, ho2⟩ :=
      (crankLoop_mapM epoch validators txOk' stakes ⟨[], 0, 0, 0⟩).1 plans hm
    rw [h] at hl1
    rw [h'] at hl2
    cases hl1
    cases hl2
    rw [ho1, ho2]
  | error e =>
    have := (crankLoop_mapM epoch validators txOk stakes ⟨[], 0, 0, 0⟩).2 e hm
    rw [h] at this
    exact absurd this (by simp)

/-- Inversion of a shortfall run, counter side: the final ok/err counters
are the per-submission outcome tallies of the emitted operations. -/
theorem shortfall_counts_facts (p : SDParams) (env : Nat → IterView)
    (flag : Bool) (st : ShortSt)
    (h : stakeDeltaProcess p env = some (flag, SDOutcome.unstaked st)) :
    st.count_tx_ok = (st.ops.filter (fun o => (env o.step).txOk)).length ∧
    st.count_tx_err = (st.ops.filter (fun o => !(env o.step).txOk)).length ∧
    st.count_tx_ok + st.count_tx_err = st.ops.length := by
  simp only [stakeDeltaProcess] at h
  by_cases hA : stake_delta p.initial = 0 ∨
      (0 ≤ stake_delta p.initial ∧ stake_delta p.initial < (p.min_stake : Int))
  · rw [if_pos hA] at h
    exact absurd h (by simp)
  · rw [if_neg hA] at h
    by_cases hB : ((p.total_active_balance : Int) + stake_delta p.initial) < 0 ∨
        (u64MAX : Int) < ((p.total_active_balance : Int) + stake_delta p.initial)
    · rw [if_pos hB] at h
      exact absurd h (by simp)
    · rw [if_neg hB] at h
      by_cases hC : 0 < stake_delta p.initial
      · rw [if_pos hC] at h
        exact absurd h (by simp)
      · rw [if_neg hC] at h
        have hpair := Option.some.inj h
        have hst := SDOutcome.unstaked.inj (congrArg Prod.snd hpair)
        obtain ⟨new, heq, _, _⟩ :=
          shortfallOuter_spec p.epoch p.limit (-(stake_delta p.initial)).toNat
            p.stakes_reversed env
            (sortBy (fun a b => decide (a.stake_delta ≤ b.stake_delta))
              (mkValidatorsInfo p.validator_list
                (((p.total_active_balance : Int) + stake_delta p.initial)).toNat
                p.total_score))
            (sortedShortfallVis_pairwise _ _ _) 0 0 ⟨[], 0, 0, 0⟩
        rw [heq] at hst
        have hops : st.ops = new := by
          rw [← hst]
          simp
        have hok : st.count_tx_ok =
            (new.filter (fun o => (env o.step).txOk)).length := by
          rw [← hst]
          simp
        have herr : st.count_tx_err =
            (new.filter (fun o => !(env o.step).txOk)).length := by
          rw [← hst]
          simp
        refine ⟨by rw [hok, hops], by rw [herr, hops], ?_⟩
        rw [hok, herr, hops]
        exact length_filter_partition (fun o => (env o.step).txOk) new

/-- C3 counterexample.  Two shortfall runs on identical inputs — one
validator needing −15, positions of 15 and 40 — whose outcome oracles agree
on every observed value and differ only in the submission outcomes
(all-success vs all-failure).  Under success the 15 position satisfies the
target and the 40 position is never attempted; under failure the 40 position
is attempted as well.  So in the Allocator's shortfall path a submission
failure does change which remaining candidates are attempted, refuting the
claim's outcome-independence for the Allocator. -/
theorem allocator_outcome_dependence_counterexample :
    stakeDeltaProcess
      ⟨⟨0, 0, 0, 15⟩, 10, 5, 0, 100, 100, [⟨1, 100, 100, 0⟩],
        [⟨1, ⟨11, 15, 0⟩, some ⟨⟨1, 15, u64MAX⟩, 0⟩, 0, 15, 0, 0⟩,
         ⟨0, ⟨10, 40, 0⟩, some ⟨⟨1, 40, u64MAX⟩, 0⟩, 0, 40, 0, 0⟩]⟩
      (fun _ => ⟨⟨0, 0, 0, 15⟩, 0, true, false⟩) =
      some (true, SDOutcome.unstaked
        ⟨[⟨⟨0, ⟨1, 100, 100, 0⟩, -15⟩,
            ⟨1, ⟨11, 15, 0⟩, some ⟨⟨1, 15, u64MAX⟩, 0⟩, 0, 15, 0, 0⟩, 1⟩],
          1, 0, 1⟩) ∧
    stakeDeltaProcess
      ⟨⟨0, 0, 0, 15⟩, 10, 5, 0, 100, 100, [⟨1, 100, 100, 0⟩],
        [⟨1, ⟨11, 15, 0⟩, some ⟨⟨1, 15, u64MAX⟩, 0⟩, 0, 15, 0, 0⟩,
         ⟨0, ⟨10, 40, 0⟩, some ⟨⟨1, 40, u64MAX⟩, 0⟩, 0, 40, 0, 0⟩]⟩
      (fun _ => ⟨⟨0, 0, 0, 15⟩, 0, false, false⟩) =
      some (false, SDOutcome.unstaked
        ⟨[⟨⟨0, ⟨1, 100, 100, 0⟩, -15⟩,
            ⟨1, ⟨11, 15, 0⟩, some ⟨⟨1, 15, u64MAX⟩, 0⟩, 0, 15, 0, 0⟩, 1⟩,
          ⟨⟨0, ⟨1, 100, 100, 0⟩, -15⟩,
            ⟨0, ⟨10, 40, 0⟩, some ⟨⟨1, 40, u64MAX⟩, 0⟩, 0, 40, 0, 0⟩, 2⟩],
          0, 2, 2⟩) ∧
    ([⟨⟨0, ⟨1, 100, 100, 0⟩, -15⟩,
        ⟨1, ⟨11, 15, 0⟩, some ⟨⟨1, 15, u64MAX⟩, 0⟩, 0, 15, 0, 0⟩, 1⟩] :
      List DeactivateOp).map (fun o => o.sInfo.record.stake_account) ≠
    ([⟨⟨0, ⟨1, 100, 100, 0⟩, -15⟩,
        ⟨1, ⟨11, 15, 0⟩, some ⟨⟨1, 15, u64MAX⟩, 0⟩, 0, 15, 0, 0⟩, 1⟩,
      ⟨⟨0, ⟨1, 100, 100, 0⟩, -15⟩,
        ⟨0, ⟨10, 40, 0⟩, some ⟨⟨1, 40, u64MAX⟩, 0⟩, 0, 40, 0, 0⟩, 2⟩] :
      List DeactivateOp).map (fun o => o.sInfo.record.stake_account) := by
  refine ⟨by decide, by decide, by decide⟩

/-- C3 (amended): a failed batch submission in the Allocator, the Merge
Consolidator, or the Crank only increments the error counter and the pass
continues with the next candidate — it never aborts the pass — and the
final ok/err counts equal the numbers of successful and failed submissions
(their sum being the number of submissions made; proved here for the
Allocator's surplus and shortfall passes, the Consolidator's scan and the
Crank).  In the surplus pass, the Consolidator and the Crank, which
candidates are attempted is moreover independent of the submission
outcomes.  In the shortfall pass it is not (see the counterexample): a
failed retire/split submission leaves the satisfied-sum accumulators and
the remaining amount unchanged and the scan simply moves to the next
position, so a failure can lead to further candidates being attempted that
a success — by satisfying the target — would have cut off. -/
theorem failure_counting_spec
    (ms epoch limit : Nat) (env env' : Nat → IterView)
    (validators : List ValidatorRecord) (txOk txOk' : Nat → Bool)
    (mstakes : List MergeableStakeInfo) (stakes : List StakeInfo)
    (vis : List ValidatorInfo) (cst cst' : CrankState) :
    ((∀ k, (env k).delta_inputs = (env' k).delta_inputs ∧
        (env k).extra_stake_delta_runs = (env' k).extra_stake_delta_runs ∧
        (env k).elapsed_exceeds = (env' k).elapsed_exceeds) →
      (surplusLoop ms epoch limit env vis 0 ⟨[], 0, 0, 0⟩).ops =
        (surplusLoop ms epoch limit env' vis 0 ⟨[], 0, 0, 0⟩).ops) ∧
    ((surplusLoop ms epoch limit env vis 0 ⟨[], 0, 0, 0⟩).count_tx_ok =
        ((surplusLoop ms epoch limit env vis 0 ⟨[], 0, 0, 0⟩).ops.filter
          (fun o => (env o.step).txOk)).length ∧
      (surplusLoop ms epoch limit env vis 0 ⟨[], 0, 0, 0⟩).count_tx_err =
        ((surplusLoop ms epoch limit env vis 0 ⟨[], 0, 0, 0⟩).ops.filter
          (fun o => !(env o.step).txOk)).length ∧
      (surplusLoop ms epoch limit env vis 0 ⟨[], 0, 0, 0⟩).count_tx_ok +
        (surplusLoop ms epoch limit env vis 0 ⟨[], 0, 0, 0⟩).count_tx_err =
        (surplusLoop ms epoch limit env vis 0 ⟨[], 0, 0, 0⟩).ops.length) ∧
    ((mergeProcess mstakes txOk).ops = (mergeProcess mstakes txOk').ops) ∧
    ((mergeProcess mstakes txOk).count_processed =
        (mergeProcess mstakes txOk).ops.length ∧
      (mergeProcess mstakes txOk).count_tx_ok =
        ((List.range (mergeProcess mstakes txOk).ops.length).filter
          (fun i => txOk i)).length ∧
      (mergeProcess mstakes txOk).count_tx_err =
        ((List.range (mergeProcess mstakes txOk).ops.length).filter
          (fun i => !txOk i)).length) ∧
    (crankLoop epoch validators txOk stakes ⟨[], 0, 0, 0⟩ = Except.ok cst →
      crankLoop epoch validators txOk' stakes ⟨[], 0, 0, 0⟩ = Except.ok cst' →
      cst.ops = cst'.ops) ∧
    (crankLoop epoch validators txOk stakes ⟨[], 0, 0, 0⟩ = Except.ok cst →
      cst.count_tx_ok + cst.count_tx_err = cst.ops.length ∧
      cst.count_tx_ok =
        ((List.range cst.ops.length).filter (fun i => txOk i)).length ∧
      cst.count_tx_err =
        ((List.range cst.ops.length).filter (fun i => !txOk i)).length) ∧
    (∀ (p : SDParams) (envS : Nat → IterView) (flagS : Bool) (sst : ShortSt),
      stakeDeltaProcess p envS = some (flagS, SDOutcome.unstaked sst) →
      sst.count_tx_ok = (sst.ops.filter (fun o => (envS o.step).txOk)).length ∧
      sst.count_tx_err = (sst.ops.filter (fun o => !(envS o.step).txOk)).length ∧
      sst.count_tx_ok + sst.count_tx_err = sst.ops.length) ∧
    (∀ (limit2 : Nat) (env2 : Nat → IterView) (vi : ValidatorInfo) (tufv : Nat)
        (s : StakeInfo) (rest : List StakeInfo) (step sum left : Nat)
        (sst : ShortSt),
      ¬(tufv ≤ sum) → (env2 step).txOk = false →
      ¬(0 < limit2 ∧ limit2 ≤ sst.count_processed + 1) →
      shortfallInner limit2 env2 vi tufv (s :: rest) step sum left sst =
        shortfallInner limit2 env2 vi tufv rest (step + 1) sum left
          ⟨sst.ops ++ [⟨vi, s, step⟩], sst.count_tx_ok,
            sst.count_tx_err + 1, sst.count_processed + 1⟩) := by
  refine ⟨?_, ?_, ?_, ?_, ?_, ?_, ?_, ?_⟩
  · intro hag
    exact (surplusLoop_outcome_indep ms epoch limit env env' hag vis 0
      ⟨[], 0, 0, 0⟩ ⟨[], 0, 0, 0⟩ rfl rfl).1
  · obtain ⟨new, heq, _, _, _⟩ :=
      surplusLoop_spec ms epoch limit env vis 0 ⟨[], 0, 0, 0⟩
    rw [heq]
    refine ⟨by simp, by simp, ?_⟩
    simp only [List.nil_append, Nat.zero_add]
    have := length_filter_partition (fun o => (env o.step).txOk) new
    simpa using this
  · exact mergeFold_ops_indep mstakes txOk txOk' _ ⟨[], 0, 0, 0⟩ ⟨[], 0, 0, 0⟩ rfl
  · exact mergeFold_counts mstakes txOk _ ⟨[], 0, 0, 0⟩ rfl rfl rfl
  · intro h h'
    exact crankLoop_ops_indep epoch validators txOk txOk' stakes cst cst' h h'
  · intro h
    exact crankLoop_counts epoch validators txOk stakes ⟨[], 0, 0, 0⟩ cst
      rfl rfl rfl h
  · intro p envS flagS sst hs
    exact shortfall_counts_facts p envS flagS sst hs
  · intro limit2 env2 vi tufv s rest step sum left sst h1 htx hlim
    simp only [shortfallInner]
    rw [if_neg h1]
    simp [htx, hlim]

/-- Witness for C3 (amended): concrete one-validator surplus pass,
three-entry merge scan and one-position crank under all-success and
all-failure oracles (operations agree, counters tally outcomes); a concrete
all-failure shortfall run whose error counter tallies its two failed
submissions; and a concrete failed shortfall step that only increments the
error counter and continues with the next position. -/
theorem failure_counting_spec_witness :
    ((surplusLoop 10 5 0 (fun _ => ⟨⟨100, 0, 0, 0⟩, 0, true, false⟩)
        [⟨0, ⟨1, 700, 300, 0⟩, 50⟩] 0 ⟨[], 0, 0, 0⟩).ops =
      (surplusLoop 10 5 0 (fun _ => ⟨⟨100, 0, 0, 0⟩, 0, false, false⟩)
        [⟨0, ⟨1, 700, 300, 0⟩, 50⟩] 0 ⟨[], 0, 0, 0⟩).ops) ∧
    ((mergeProcess
        [⟨0, MergeableStakeKind.fullyActive, 42, 100, 0⟩,
         ⟨1, MergeableStakeKind.fullyActive, 42, 101, 0⟩] (fun _ => true)).ops =
      (mergeProcess
        [⟨0, MergeableStakeKind.fullyActive, 42, 100, 0⟩,
         ⟨1, MergeableStakeKind.fullyActive, 42, 101, 0⟩] (fun _ => false)).ops) ∧
    ((⟨[CrankOp.updateActive 77 2 0], 1, 0, 1⟩ : CrankState).ops =
      (⟨[CrankOp.updateActive 77 2 0], 0, 1, 1⟩ : CrankState).ops) ∧
    ((⟨[CrankOp.updateActive 77 2 0], 0, 1, 1⟩ : CrankState).count_tx_err =
      ((List.range 1).filter (fun i => !(fun _ : Nat => false) i)).length) ∧
    ((⟨[⟨⟨0, ⟨1, 100, 100, 0⟩, -15⟩,
          ⟨1, ⟨11, 15, 0⟩, some ⟨⟨1, 15, u64MAX⟩, 0⟩, 0, 15, 0, 0⟩, 1⟩,
        ⟨⟨0, ⟨1, 100, 100, 0⟩, -15⟩,
          ⟨0, ⟨10, 40, 0⟩, some ⟨⟨1, 40, u64MAX⟩, 0⟩, 0, 40, 0, 0⟩, 2⟩],
        0, 2, 2⟩ : ShortSt).count_tx_err =
      ((⟨[⟨⟨0, ⟨1, 100, 100, 0⟩, -15⟩,
            ⟨1, ⟨11, 15, 0⟩, some ⟨⟨1, 15, u64MAX⟩, 0⟩, 0, 15, 0, 0⟩, 1⟩,
          ⟨⟨0, ⟨1, 100, 100, 0⟩, -15⟩,
            ⟨0, ⟨10, 40, 0⟩, some ⟨⟨1, 40, u64MAX⟩, 0⟩, 0, 40, 0, 0⟩, 2⟩],
          0, 2, 2⟩ : ShortSt).ops.filter
        (fun o => !((fun _ : Nat => (⟨⟨0, 0, 0, 15⟩, 0, false, false⟩ : IterView))
          o.step).txOk)).length) ∧
    (shortfallInner 0 (fun _ => ⟨⟨0, 0, 0, 15⟩, 0, false, false⟩)
        ⟨0, ⟨1, 100, 100, 0⟩, -15⟩ 15
        [⟨0, ⟨10, 40, 0⟩, some ⟨⟨1, 40, u64MAX⟩, 0⟩, 0, 40, 0, 0⟩] 2 0 15
        ⟨[⟨⟨0, ⟨1, 100, 100, 0⟩, -15⟩,
            ⟨1, ⟨11, 15, 0⟩, some ⟨⟨1, 15, u64MAX⟩, 0⟩, 0, 15, 0, 0⟩, 1⟩],
          0, 1, 1⟩ =
      shortfallInner 0 (fun _ => ⟨⟨0, 0, 0, 15⟩, 0, false, false⟩)
        ⟨0, ⟨1, 100, 100, 0⟩, -15⟩ 15 [] 3 0 15
        ⟨[⟨⟨0, ⟨1, 100, 100, 0⟩, -15⟩,
            ⟨1, ⟨11, 15, 0⟩, some ⟨⟨1, 15, u64MAX⟩, 0⟩, 0, 15, 0, 0⟩, 1⟩,
          ⟨⟨0, ⟨1, 100, 100, 0⟩, -15⟩,
            ⟨0, ⟨10, 40, 0⟩, some ⟨⟨1, 40, u64MAX⟩, 0⟩, 0, 40, 0, 0⟩, 2⟩],
          0, 2, 2⟩) := by
  have h := failure_counting_spec 10 5 0
    (fun _ => ⟨⟨100, 0, 0, 0⟩, 0, true, false⟩)
    (fun _ => ⟨⟨100, 0, 0, 0⟩, 0, false, false⟩)
    [⟨9, 0, 0, 0⟩] (fun _ => true) (fun _ => false)
    [⟨0, MergeableStakeKind.fullyActive, 42, 100, 0⟩,
     ⟨1, MergeableStakeKind.fullyActive, 42, 101, 0⟩]
    [⟨2, ⟨77, 50, 3⟩, some ⟨⟨9, 60, u64MAX⟩, 4⟩, 0, 60, 0, 0⟩]
    [⟨0, ⟨1, 700, 300, 0⟩, 50⟩]
    ⟨[CrankOp.updateActive 77 2 0], 1, 0, 1⟩
    ⟨[CrankOp.updateActive 77 2 0], 0, 1, 1⟩
  refine ⟨h.1 (fun k => ⟨rfl, rfl, rfl⟩), h.2.2.1, ?_, ?_, ?_, ?_⟩
  · exact h.2.2.2.2.1 (by rfl) (by rfl)
  · have hc := h.2.2.2.2.2.1 (by rfl)
    simpa using hc.2.2
  · exact (h.2.2.2.2.2.2.1
      ⟨⟨0, 0, 0, 15⟩, 10, 5, 0, 100, 100, [⟨1, 100, 100, 0⟩],
        [⟨1, ⟨11, 15, 0⟩, some ⟨⟨1, 15, u64MAX⟩, 0⟩, 0, 15, 0, 0⟩,
         ⟨0, ⟨10, 40, 0⟩, some ⟨⟨1, 40, u64MAX⟩, 0⟩, 0, 40, 0, 0⟩]⟩
      (fun _ => ⟨⟨0, 0, 0, 15⟩, 0, false, false⟩) false
      ⟨[⟨⟨0, ⟨1, 100, 100, 0⟩, -15⟩,
          ⟨1, ⟨11, 15, 0⟩, some ⟨⟨1, 15, u64MAX⟩, 0⟩, 0, 15, 0, 0⟩, 1⟩,
        ⟨⟨0, ⟨1, 100, 100, 0⟩, -15⟩,
          ⟨0, ⟨10, 40, 0⟩, some ⟨⟨1, 40, u64MAX⟩, 0⟩, 0, 40, 0, 0⟩, 2⟩],
        0, 2, 2⟩ (by decide)).2.1
  · exact h.2.2.2.2.2.2.2 0 (fun _ => ⟨⟨0, 0, 0, 15⟩, 0, false, false⟩)
      ⟨0, ⟨1, 100, 100, 0⟩, -15⟩ 15
      ⟨0, ⟨10, 40, 0⟩, some ⟨⟨1, 40, u64MAX⟩, 0⟩, 0, 40, 0, 0⟩ [] 2 0 15
      ⟨[⟨⟨0, ⟨1, 100, 100, 0⟩, -15⟩,
          ⟨1, ⟨11, 15, 0⟩, some ⟨⟨1, 15, u64MAX⟩, 0⟩, 0, 15, 0, 0⟩, 1⟩],
        0, 1, 1⟩ (by decide) rfl (by decide)

end Marinade
